import Mathlib

/-!
# Verification of the genrule rule-generation core (`genrule/genrule.go`)

This file gives a shallow embedding of the genrule/gensrcs build-action
generator and proves properties of its label resolution, command-template
expansion, task generation, sharding and output-merge logic.

Conventions:
* Go strings are Lean `String`; Go `[]string` is `List String`.
* The Go `map[string][]string` of location labels is embedded as an
  association list (keys are never overwritten by the code, so insertion
  order is preserved); `lookupLabel` gives the map semantics.
* Errors reported through `ctx.ModuleErrorf` / `ctx.PropertyErrorf` are
  accumulated in an explicit error list; the error constructors carry the
  same data that the Go format strings interpolate.
* Functions of the `android` package that are called by this file's code
  but whose source is not part of the repository snapshot are modelled
  from the spec; each such definition says so in its doc comment.
-/

set_option autoImplicit false

namespace Genrule

/-- The errors that `GenerateAndroidBuildActions` and its helpers can report.
Each constructor corresponds to one `ModuleErrorf`/`PropertyErrorf` call site
in `genrule.go` and carries the values interpolated into the format string. -/
inductive GenError where
  /-- `ModuleErrorf("multiple labels for %q, %q and %q", label, old, new)`:
  the same label bound twice; carries the label, the joined old path set and
  the joined new path set. -/
  | multipleLabels (label : String) (oldPaths newPaths : List String)
  /-- `"at least one `tools` or `tool_files` is required if $(location) is used"` -/
  | atLeastOneToolRequired
  /-- `"default label %q has no files"` -/
  | defaultLabelNoFiles (label : String)
  /-- `"default label %q has multiple files, use $(locations %s) ..."` -/
  | defaultLabelMultipleFiles (label : String)
  /-- `"$(depfile) used without depfile property"` -/
  | depfileNotEnabled
  /-- `"label %q has no files"` -/
  | labelNoFiles (label : String)
  /-- `"label %q has multiple files, use $(locations %s) ..."` -/
  | labelMultipleFiles (label : String)
  /-- `"unknown location label %q"` -/
  | unknownLocationLabel (label : String)
  /-- `"unknown locations label %q"` -/
  | unknownLocationsLabel (label : String)
  /-- `"unknown variable '$(%s)'"` -/
  | unknownVariable (name : String)
  /-- `ModuleErrorf("must have at least one output file")` -/
  | mustHaveOutput
  /-- `"specified depfile=true but did not include a reference to '${depfile}' in cmd"` -/
  | depfileNotReferenced
  /-- `ModuleErrorf("depends on disabled module %q", tool)` -/
  | dependsOnDisabledModule (tool : String)
  /-- `ModuleErrorf("%q is not a host tool provider", tool)` -/
  | notAHostToolProvider (tool : String)
  /-- `ModuleErrorf("cannot find path for %q: %v", tool, err)` -/
  | cannotFindToolPath (tool : String)
  /-- `ModuleErrorf("host tool %q missing output file", tool)` -/
  | hostToolMissingOutput (tool : String)
  /-- the Go `panic` on missing deps when `AllowMissingDependencies` is off -/
  | panicUnexpectedMissingDeps (missing : List String)
deriving DecidableEq, Repr

/-- Map semantics of the Go `map[string][]string` embedded as an association
list: the value of the first (and only, keys are unique by construction)
entry with the given key. -/
def lookupLabel : List (String × List String) → String → Option (List String)
  | [], _ => none
  | (k, v) :: rest, key => if k = key then some v else lookupLabel rest key

/-- Modelled from the spec: the `android` package's path constructors used
by this file (`PathForModuleGen`, `GenPathWithExt`, `ReplaceExtension`,
resolved source paths), which are not part of this repository snapshot,
embedded as a free path algebra. -/
inductive GPath where
  /-- `android.PathForModuleGen(ctx, subdirs...)` -/
  | moduleGen (subdirs : List String)
  /-- `android.GenPathWithExt(ctx, subdir, srcPath, ext)`: the source's name
  under the given generated subdirectory with the extension substituted -/
  | genWithExt (subdir : String) (src : GPath) (ext : String)
  /-- `WritablePath.ReplaceExtension(ctx, ext)` -/
  | replaceExt (base : GPath) (ext : String)
  /-- a resolved source path -/
  | source (s : String)
deriving DecidableEq, Repr

/-- Modelled from the spec: the full string form of a path
(Go `Path.String()`). -/
def GPath.str : GPath → String
  | .moduleGen subdirs => String.intercalate "/" ("GEN" :: subdirs)
  | .genWithExt subdir src ext => "GEN/" ++ subdir ++ "/" ++ src.str ++ "." ++ ext
  | .replaceExt base ext => base.str ++ "." ++ ext
  | .source s => s

/-- Modelled from the spec: `Path.Rel()`, the rule-relative name of a path
(for an output of the single-task variant, the declared output name). -/
def GPath.rel : GPath → String
  | .moduleGen subdirs => String.intercalate "/" subdirs
  | .genWithExt subdir src ext => subdir ++ "/" ++ src.rel ++ "." ++ ext
  | .replaceExt base ext => base.rel ++ "." ++ ext
  | .source s => s

/-- Modelled from the spec: `android.SboxPathForOutput` translates an output
path into the sandbox-relative form the executed command will see once
materialized in the task's isolated gen directory (`genDir`); the stable
path-mapping function the expander invokes for `$(out)` and `$(genDir)`. -/
def sboxPathForOutput (out genDir : GPath) : String :=
  if (genDir.rel ++ "/").data.isPrefixOf out.rel.data then
    "__SBOX_OUT_DIR__/" ++ String.mk (out.rel.data.drop (genDir.rel ++ "/").data.length)
  else "__SBOX_OUT_DIR__/" ++ out.rel

/-- The mutable state of one `GenerateAndroidBuildActions` evaluation:
the location-label map and first label (lines 224-225), the error sink,
and the accumulators threaded through the function (`g.deps`, missing deps,
`srcFiles`, `g.rawCommands`, `outputFiles`, `copyFrom`). -/
structure GenState where
  locationLabels : List (String × List String) := []
  firstLabel : String := ""
  errors : List GenError := []
  deps : List String := []
  missingDeps : List String := []
  srcFiles : List String := []
  rawCommands : List String := []
  outputFiles : List GPath := []
  copyFrom : List GPath := []
deriving DecidableEq, Repr

/-- The function `addLocationLabel` (genrule.go lines 227-237): remember the first label
ever registered; bind the label if it is new, otherwise report
`multiple labels for ...` naming the old and the new path sets, leaving the
existing binding in place. -/
def addLocationLabel (st : GenState) (label : String) (paths : List String) : GenState :=
  let st := if st.firstLabel = "" then { st with firstLabel := label } else st
  match lookupLabel st.locationLabels label with
  | none => { st with locationLabels := st.locationLabels ++ [(label, paths)] }
  | some old => { st with errors := st.errors ++ [.multipleLabels label old paths] }

/-! ## The command-expansion closure (genrule.go lines 342-407) -/

/-- The values captured by the expansion closure passed to `android.Expand`
at genrule.go line 342: the module's `Tools`/`Tool_files`/`Depfile`
properties, the resolved `srcFiles`, the location-label map with its first
label, and the per-task sandbox-translated outputs and gen directory. -/
structure GenruleEnv where
  tools : List String := []
  toolFiles : List String := []
  depfileProp : Bool := false
  srcFiles : List String := []
  labels : List (String × List String) := []
  firstLabel : String := ""
  taskOutSbox : List String := []
  genDirSbox : String := ""
deriving DecidableEq, Repr

/-- Result of substituting one variable reference: the substituted text
(`"SOONG_ERROR"` when an error was reported), the errors reported for this
reference, and whether the reference was `$(depfile)`. -/
structure SubstOut where
  text : String
  errs : List GenError
  refDepfile : Bool
deriving DecidableEq, Repr

/-- Go `strings.TrimSpace`, modelled over the ASCII whitespace characters
(label strings in build files are ASCII). -/
def trimChars (l : List Char) : List Char :=
  ((l.dropWhile Char.isWhitespace).reverse.dropWhile Char.isWhitespace).reverse

/-- The `case "location"` branch (lines 351-362): requires at least one
tool or tool file, then resolves the default (first-registered) label,
which must have exactly one path. A Go map miss yields `nil`, hence the
`getD []`. -/
def locationDefaultCase (env : GenruleEnv) : SubstOut :=
  if env.tools.length = 0 ∧ env.toolFiles.length = 0 then
    ⟨"SOONG_ERROR", [.atLeastOneToolRequired], false⟩
  else if ((lookupLabel env.labels env.firstLabel).getD []).length = 0 then
    ⟨"SOONG_ERROR", [.defaultLabelNoFiles env.firstLabel], false⟩
  else if ((lookupLabel env.labels env.firstLabel).getD []).length > 1 then
    ⟨"SOONG_ERROR", [.defaultLabelMultipleFiles env.firstLabel], false⟩
  else ⟨((lookupLabel env.labels env.firstLabel).getD []).headD "", [], false⟩

/-- The `case "depfile"` branch (lines 371-376): the reference is recorded
before the property check, so `refDepfile` is `true` on both paths. -/
def depfileCase (env : GenruleEnv) : SubstOut :=
  if env.depfileProp then ⟨"__SBOX_DEPFILE__", [], true⟩
  else ⟨"SOONG_ERROR", [.depfileNotEnabled], true⟩

/-- The `$(location <label>)` branch (lines 380-392): the label must be
bound and have exactly one path. -/
def locationLabelCase (env : GenruleEnv) (label : String) : SubstOut :=
  match lookupLabel env.labels label with
  | some paths =>
    if paths.length = 0 then ⟨"SOONG_ERROR", [.labelNoFiles label], false⟩
    else if paths.length > 1 then ⟨"SOONG_ERROR", [.labelMultipleFiles label], false⟩
    else ⟨paths.headD "", [], false⟩
  | none => ⟨"SOONG_ERROR", [.unknownLocationLabel label], false⟩

/-- The `$(locations <label>)` branch (lines 393-402): the label must be
bound and nonempty; its paths are space-joined. -/
def locationsLabelCase (env : GenruleEnv) (label : String) : SubstOut :=
  match lookupLabel env.labels label with
  | some paths =>
    if paths.length = 0 then ⟨"SOONG_ERROR", [.labelNoFiles label], false⟩
    else ⟨String.intercalate " " paths, [], false⟩
  | none => ⟨"SOONG_ERROR", [.unknownLocationsLabel label], false⟩

/-- The `switch name` of the expansion closure (lines 350-406). The Go
`default` branch's `strings.HasPrefix(name, "location ")` /
`"locations "` tests with `TrimPrefix` + `TrimSpace` label extraction
appear as the two prefix tests over the name's characters; they come after
the exact-match cases, which is equivalent to the Go switch because no
exact case starts with `"location "` or `"locations "`. -/
def genruleSubst (env : GenruleEnv) (name : String) : SubstOut :=
  if name = "location" then locationDefaultCase env
  else if name = "in" then ⟨String.intercalate " " env.srcFiles, [], false⟩
  else if name = "out" then ⟨String.intercalate " " env.taskOutSbox, [], false⟩
  else if name = "depfile" then depfileCase env
  else if name = "genDir" then ⟨env.genDirSbox, [], false⟩
  else if "location ".data.isPrefixOf name.data then
    locationLabelCase env (String.mk (trimChars (name.data.drop 9)))
  else if "locations ".data.isPrefixOf name.data then
    locationsLabelCase env (String.mk (trimChars (name.data.drop 10)))
  else ⟨"SOONG_ERROR", [.unknownVariable name], false⟩

/-! ## Template expansion (`android.Expand`, modelled from the spec) -/

/-- Modelled from the spec: a `CommandTemplate` is "an immutable string
containing zero or more variable references of the form `$(name)` ... and
the literal escape `$$`". `android.Expand` is not part of this repository
snapshot, so a parsed template is embedded as its sequence of literal
chunks and variable references (`$$` is a literal `$` inside a chunk). -/
inductive TmplPart where
  | lit (s : String)
  | var (name : String)
deriving DecidableEq, Repr

/-- Result of expanding a whole template: the expanded string, every error
reported during the walk, and whether `$(depfile)` was referenced. -/
structure ExpandResult where
  out : String
  errs : List GenError
  refDepfile : Bool
deriving DecidableEq, Repr

/-- Modelled from the spec: the single walk `android.Expand` performs over a
template, with the genrule closure substituting each variable. A failed
reference contributes the `"SOONG_ERROR"` sentinel text and its error
(genrule.go lines 344-348 report the error directly instead of returning it,
"to catch multiple errors in a single run") and the walk continues. -/
def expandTemplate (env : GenruleEnv) : List TmplPart → ExpandResult
  | [] => ⟨"", [], false⟩
  | .lit s :: rest =>
    let r := expandTemplate env rest
    ⟨s ++ r.out, r.errs, r.refDepfile⟩
  | .var n :: rest =>
    let s := genruleSubst env n
    let r := expandTemplate env rest
    ⟨s.text ++ r.out, s.errs ++ r.errs, s.refDepfile || r.refDepfile⟩

/-! ## The per-task loop (genrule.go lines 330-457) -/

/-- The module-level properties the per-task loop consults. -/
structure GenProps where
  tools : List String := []
  toolFiles : List String := []
  depfileProp : Bool := false
deriving DecidableEq, Repr

/-- One `generateTask` (genrule.go lines 156-165), its command template in
parsed form. -/
structure TaskT where
  ins : List GPath := []
  out : List GPath := []
  depFile : Option GPath := none
  copyTo : List GPath := []
  genDir : GPath := .moduleGen []
  cmd : List TmplPart := []
deriving DecidableEq, Repr

/-- The `for _, out := range task.out` loop of lines 336-338: register every
declared output as a location label under its rule-relative name, bound to
its sandbox-mapped path. -/
def registerOutsList (genDir : GPath) (st : GenState) : List GPath → GenState
  | [] => st
  | o :: rest =>
    registerOutsList genDir (addLocationLabel st o.rel [sboxPathForOutput o genDir]) rest

def registerOuts (st : GenState) (t : TaskT) : GenState :=
  registerOutsList t.genDir st t.out

/-- The per-task expansion environment: the values the closure at line 342
reads from the module, the resolution state, and the task. -/
def taskEnv (props : GenProps) (st : GenState) (t : TaskT) : GenruleEnv :=
  { tools := props.tools
    toolFiles := props.toolFiles
    depfileProp := props.depfileProp
    srcFiles := st.srcFiles
    labels := st.locationLabels
    firstLabel := st.firstLabel
    taskOutSbox := t.out.map (fun o => sboxPathForOutput o t.genDir)
    genDirSbox := sboxPathForOutput t.genDir t.genDir }

/-- The body of the per-task loop (lines 330-457) for one task: a task with
no outputs is rejected (`must have at least one output file`) before any
other work; otherwise the outputs are registered as labels, the command is
expanded, the depfile-referenced invariant is checked after expansion, the
raw command is recorded, and the output/copy accumulators are extended.
The returned `Bool` is whether the loop continues (the Go `return`
statements stop the whole generation). -/
def runTask (props : GenProps) (st : GenState) (t : TaskT) : GenState × Bool :=
  if t.out = [] then
    ({ st with errors := st.errors ++ [.mustHaveOutput] }, false)
  else
    let st1 := registerOuts st t
    let r := expandTemplate (taskEnv props st1 t) t.cmd
    let st2 := { st1 with errors := st1.errors ++ r.errs }
    if props.depfileProp = true ∧ r.refDepfile = false then
      ({ st2 with errors := st2.errors ++ [.depfileNotReferenced] }, false)
    else
      let st3 := { st2 with rawCommands := st2.rawCommands ++ [r.out] }
      if t.copyTo ≠ [] then
        ({ st3 with outputFiles := st3.outputFiles ++ t.copyTo,
                    copyFrom := st3.copyFrom ++ t.out }, true)
      else
        ({ st3 with outputFiles := st3.outputFiles ++ t.out }, true)

/-- The whole task loop over `g.taskGenerator`'s tasks. -/
def runTasks (props : GenProps) (st : GenState) : List TaskT → GenState
  | [] => st
  | t :: rest =>
    let p := runTask props st t
    if p.2 then runTasks props p.1 rest else p.1

/-! ## Tool and source resolution (genrule.go lines 239-324) -/

/-- How one entry of `g.properties.Tools` resolves during the dependency
visit (lines 242-278): an enabled host-tool provider with a valid path, a
Go binary with a relativizable install path, a disabled module, a module
that is not a host tool provider, a Go binary whose path cannot be
relativized, a host tool with no output file, or a module missing from the
dependency graph entirely (the visit never sees it). -/
inductive ToolRes where
  | hostTool (path : String)
  | goBinary (path : String)
  | disabledModule
  | notHostToolProvider
  | goBinaryNoPath
  | hostToolNoOutput
  | missingModule
deriving DecidableEq, Repr

/-- A declared tool together with how its dependency resolves. -/
structure ToolDep where
  label : String
  res : ToolRes
deriving DecidableEq, Repr

/-- The state effect of one `VisitDirectDepsBlueprint` callback invocation
(lines 242-278) for the dependency of one declared tool. A missing module is
never visited; a disabled module is recorded as a missing dependency in
permissive mode and is an error otherwise; a resolved tool path extends
`g.deps` and binds the tool's label; the remaining cases are errors. -/
def visitToolState (allowMissing : Bool) (s : GenState) (t : ToolDep) : GenState :=
  match t.res with
  | .missingModule => s
  | .disabledModule =>
    if allowMissing then { s with missingDeps := s.missingDeps ++ [t.label] }
    else { s with errors := s.errors ++ [.dependsOnDisabledModule t.label] }
  | .hostTool p => addLocationLabel { s with deps := s.deps ++ [p] } t.label [p]
  | .goBinary p => addLocationLabel { s with deps := s.deps ++ [p] } t.label [p]
  | .notHostToolProvider => { s with errors := s.errors ++ [.notAHostToolProvider t.label] }
  | .goBinaryNoPath => { s with errors := s.errors ++ [.cannotFindToolPath t.label] }
  | .hostToolNoOutput => { s with errors := s.errors ++ [.hostToolMissingOutput t.label] }

/-- Whether the visit marks the tool as seen (`seenTools[tag.label] = true`,
line 273: exactly the resolutions that reach the valid-path branch). -/
def toolSeen : ToolRes → Bool
  | .hostTool _ => true
  | .goBinary _ => true
  | _ => false

/-- The missing-tool placeholder path (line 288). -/
def missingToolPlaceholder (tool : String) : String :=
  "***missing tool " ++ tool ++ "***"

/-- The labels `seenTools` holds after the visit: those of the tools whose
resolution reached the valid-path branch. -/
def seenLabels (tools : List ToolDep) : List String :=
  (tools.filter (fun t => toolSeen t.res)).map ToolDep.label

/-- One step of the placeholder loop (lines 286-290): bind the placeholder
to a tool the visit did not see. -/
def placeholderStep (seen : List String) (s : GenState) (t : ToolDep) : GenState :=
  if t.label ∈ seen then s
  else addLocationLabel s t.label [missingToolPlaceholder t.label]

/-- Lines 239-292: when tools are declared, visit the tool dependencies and
then, in permissive (allow-missing-dependencies) mode, bind a placeholder
path to every declared tool the visit did not see. -/
def resolveTools (allowMissing : Bool) (tools : List ToolDep) (st : GenState) : GenState :=
  if tools.isEmpty then st
  else
    let st1 := tools.foldl (visitToolState allowMissing) st
    if allowMissing then tools.foldl (placeholderStep (seenLabels tools)) st1
    else st1

/-- Modelled from the spec: in permissive mode the dependency phase
(`toolDepsMutator`'s `AddFarVariationDependencies`, whose implementation is
not part of this snapshot) records a dependency on a module that is missing
from the graph as a missing dependency of this module instead of stopping
the build. -/
def recordMutatorMissing (allowMissing : Bool) (tools : List ToolDep) (st : GenState) :
    GenState :=
  if allowMissing then
    { st with missingDeps := st.missingDeps
        ++ (tools.filter (fun t => t.res = ToolRes.missingModule)).map ToolDep.label }
  else st

/-- One entry of `g.properties.Srcs` with the result of
`android.PathsAndMissingDepsForModuleSrcExcludes` for it: the resolved
paths and the missing dependencies it reported. -/
structure SrcEntry where
  name : String
  paths : List String
  missing : List String
deriving DecidableEq, Repr

/-- The missing-source placeholder path (line 319). -/
def missingSrcsPlaceholder (src : String) : String :=
  "***missing srcs " ++ src ++ "***"

/-- One step of the source loop (lines 305-324): an entry whose resolution
reported missing dependencies is recorded and bound to a placeholder in
permissive mode (outside permissive mode the Go code panics); a resolved
entry extends `srcFiles` and binds its paths to its label. -/
def srcStep (allowMissing : Bool) (s : GenState) (e : SrcEntry) : GenState :=
  if e.missing.isEmpty then
    addLocationLabel { s with srcFiles := s.srcFiles ++ e.paths } e.name e.paths
  else if allowMissing then
    addLocationLabel { s with missingDeps := s.missingDeps ++ e.missing } e.name
      [missingSrcsPlaceholder e.name]
  else
    { s with errors := s.errors ++ [.panicUnexpectedMissingDeps e.missing] }

/-- Lines 304-324: resolve each source entry. -/
def resolveSrcs (allowMissing : Bool) (srcs : List SrcEntry) (st : GenState) : GenState :=
  srcs.foldl (srcStep allowMissing) st

/-- One step of the tool-file loop (lines 298-302): extend `g.deps` and bind
the file's resolved paths to its label. -/
def toolFileStep (s : GenState) (tf : String × List String) : GenState :=
  addLocationLabel { s with deps := s.deps ++ tf.2 } tf.1 tf.2

/-- Lines 298-302: bind every tool file. -/
def resolveToolFiles (toolFiles : List (String × List String)) (st : GenState) : GenState :=
  toolFiles.foldl toolFileStep st

/-- The label-resolution phase of `GenerateAndroidBuildActions`
(lines 239-324), with the `ctx.Failed()` early return at line 294. -/
def resolveLabels (allowMissing : Bool) (tools : List ToolDep)
    (toolFiles : List (String × List String)) (srcs : List SrcEntry) (st : GenState) :
    GenState :=
  let st1 := resolveTools allowMissing tools (recordMutatorMissing allowMissing tools st)
  if st1.errors.isEmpty then resolveSrcs allowMissing srcs (resolveToolFiles toolFiles st1)
  else st1

/-! ### A small framework for the label-binding folds

Each phase of label resolution is a left fold whose step binds at most one
label (when fresh) and otherwise leaves the label map and the error sink
untouched; `BindStep` captures that shape and the `bindFold_*` lemmas
derive the lookup/error facts each phase needs. -/

/-- The step `f` at element `x` binds `bnd x` (when present) under `key x`
via `addLocationLabel` semantics, adds no error when it binds nothing or
when the key is fresh, and touches no other label. -/
def BindStep {α : Type} (key : α → String) (bnd : α → Option (List String))
    (f : GenState → α → GenState) (x : α) : Prop :=
  ∀ s : GenState,
    ((f s x).locationLabels
        = match bnd x with
          | none => s.locationLabels
          | some v =>
            match lookupLabel s.locationLabels (key x) with
            | none => s.locationLabels ++ [(key x, v)]
            | some _ => s.locationLabels) ∧
      (bnd x = none → (f s x).errors = s.errors) ∧
      (lookupLabel s.locationLabels (key x) = none → (f s x).errors = s.errors)

/-- The step at `x` never removes entries from `missingDeps`. -/
def MissingMono {α : Type} (f : GenState → α → GenState) (x : α) : Prop :=
  ∀ s : GenState, ∀ m ∈ s.missingDeps, m ∈ (f s x).missingDeps

/-- The binding each tool resolution produces during the visit. -/
def toolBnd (t : ToolDep) : Option (List String) :=
  match t.res with
  | .hostTool p => some [p]
  | .goBinary p => some [p]
  | _ => none

/-- The binding the placeholder loop produces for each tool. -/
def placeholderBnd (seen : List String) (t : ToolDep) : Option (List String) :=
  if t.label ∈ seen then none else some [missingToolPlaceholder t.label]

/-- The binding the source loop produces for each entry in permissive mode. -/
def srcBnd (e : SrcEntry) : Option (List String) :=
  if e.missing.isEmpty then some e.paths else some [missingSrcsPlaceholder e.name]

/-! ## The per-file (gensrcs) variant (`NewGenSrcs`, genrule.go lines 564-658) -/

/-- Single-quote escaping: each embedded `'` becomes `'\''`. -/
def escapeQuotes : List Char → List Char
  | [] => []
  | c :: rest =>
    if c = '\'' then '\'' :: '\\' :: '\'' :: '\'' :: escapeQuotes rest
    else c :: escapeQuotes rest

/-- Modelled from the spec: `proptools.ShellEscape`, the single
`shellQuote(string)` capability the design calls for — single-quote the
command, escaping embedded single quotes. -/
def shellEscape (s : String) : String :=
  "'" ++ String.mk (escapeQuotes s.data) ++ "'"

/-- Modelled from the spec: `android.ShardPaths` partitions sources into
contiguous, order-preserving groups of at most `shardSize` elements
(`ceil(N/B)` shards over `N > 0` inputs, none empty; no shards for no
inputs). The recursion is bounded by the source-list length, which each
step strictly consumes. -/
def shardPathsGo {α : Type} : Nat → List α → Nat → List (List α)
  | _, [], _ => []
  | 0, xs, _ => [xs]
  | fuel + 1, xs, n =>
    if xs.length ≤ n ∨ n = 0 then [xs]
    else xs.take n :: shardPathsGo fuel (xs.drop n) n

def shardPaths {α : Type} (xs : List α) (shardSize : Nat) : List (List α) :=
  shardPathsGo xs.length xs shardSize

/-- The `genSrcsProperties` property struct (lines 650-656). -/
structure GenSrcsProps where
  output_extension : Option String := none
  shard_size : Option Nat := none
deriving DecidableEq, Repr

/-- The `defaultShardSize` constant (line 658). -/
def defaultShardSize : Nat := 100

/-- One gensrcs `generateTask`: same shape as `generateTask`, but its
command is the fully-built per-shard command string (lines 622-633). -/
structure GenSrcsTask where
  ins : List GPath
  out : List GPath
  depFile : Option GPath
  copyTo : List GPath
  genDir : GPath
  cmd : String
  shard : Nat
  shards : Nat
deriving DecidableEq, Repr

/-- The gensrcs per-file substitution (lines 604-613): `$(in)` is the one
input, `$(out)` the one sandbox-mapped output, and any other variable is
passed through textually for the later whole-command expansion. -/
def gensrcsSubst (inPath outSbox : String) (name : String) : String :=
  if name = "in" then inPath
  else if name = "out" then outSbox
  else "$(" ++ name ++ ")"

/-- Modelled from the spec: the `android.Expand` walk for the gensrcs
per-file expansion (this substitution never fails). -/
def gensrcsExpand (inPath outSbox : String) : List TmplPart → String
  | [] => ""
  | .lit s :: rest => s ++ gensrcsExpand inPath outSbox rest
  | .var n :: rest => gensrcsSubst inPath outSbox n ++ gensrcsExpand inPath outSbox rest

/-- Line 568/584-588: the shard's gen directory — a shard-index-named
subdirectory when sharding is active, the common `gensrcs` directory
otherwise. -/
def gensrcsShardDir (numShards i : Nat) : GPath :=
  if 1 < numShards then .moduleGen [toString i] else .moduleGen ["gensrcs"]

/-- Line 591: the output's final unified name, independent of any shard. -/
def gensrcsOutFinal (ext : String) (src : GPath) : GPath :=
  .genWithExt "gensrcs" src ext

/-- Lines 591-600: the file the shard actually produces — the shard-scoped
name when sharding is active, the final name otherwise. -/
def gensrcsOutFile (numShards i : Nat) (ext : String) (src : GPath) : GPath :=
  if 1 < numShards then .genWithExt (toString i) src ext else gensrcsOutFinal ext src

/-- The per-file command (lines 604-620): the template expanded with the
single input/output pair, then shell-escaped as a unit under `bash -c`. -/
def gensrcsCommand (raw : List TmplPart) (ext : String) (numShards i : Nat)
    (src : GPath) : String :=
  "bash -c " ++ shellEscape (gensrcsExpand src.str
    (sboxPathForOutput (gensrcsOutFile numShards i ext src) (gensrcsShardDir numShards i))
    raw)

/-- The gensrcs inner loop (lines 590-621) over one shard: accumulates the
per-file commands, output files and copy targets, fixing the depfile at the
shard's first input (`j == 0`, tracked by `j0`) from the final-name output. -/
def gensrcsLoop (raw : List TmplPart) (ext : String) (numShards i : Nat) :
    Bool → List GPath → List String × List GPath × List GPath × Option GPath
  | _, [] => ([], [], [], none)
  | j0, src :: rest =>
    let depFile : Option GPath :=
      if j0 then some ((gensrcsOutFinal ext src).replaceExt "d") else none
    let outFile := gensrcsOutFile numShards i ext src
    let copy : List GPath := if 1 < numShards then [gensrcsOutFinal ext src] else []
    let command := gensrcsCommand raw ext numShards i src
    let r := gensrcsLoop raw ext numShards i false rest
    (command :: r.1, outFile :: r.2.1, copy ++ r.2.2.1,
      match depFile with
      | some d => some d
      | none => r.2.2.2)

/-- The task built for the indexed shard `p` (lines 577-633): the shard's
inputs, the loop's outputs/copy targets/depfile, the shard directory, and
the per-file commands joined with the short-circuit AND `&&` (line 622). -/
def gensrcsTaskOf (raw : List TmplPart) (ext : String) (numShards : Nat)
    (p : Nat × List GPath) : GenSrcsTask :=
  let r := gensrcsLoop raw ext numShards p.1 true p.2
  { ins := p.2
    out := r.2.1
    depFile := r.2.2.2
    copyTo := r.2.2.1
    genDir := gensrcsShardDir numShards p.1
    cmd := String.intercalate " && " r.1
    shard := p.1
    shards := numShards }

/-- The gensrcs task generator (`NewGenSrcs`, lines 567-637): shard the
sources, then build one task per shard. -/
def gensrcsTasks (props : GenSrcsProps) (raw : List TmplPart) (srcFiles : List GPath) :
    List GenSrcsTask :=
  let shards := shardPaths srcFiles (props.shard_size.getD defaultShardSize)
  shards.enum.map (gensrcsTaskOf raw (props.output_extension.getD "") shards.length)

/-- Lines 444-473, restricted to what decides the merge rule over the
generated tasks: a task with copy targets contributes its (per-shard)
outputs to `copyFrom`, and the single `gensrcsMerge` build rule is created
iff `copyFrom` is nonempty after the loop. -/
def gensrcsCopyFrom (tasks : List GenSrcsTask) : List GPath :=
  tasks.foldl (fun acc t => if t.copyTo ≠ [] then acc ++ t.out else acc) []

def gensrcsMergeCreated (tasks : List GenSrcsTask) : Bool :=
  !(gensrcsCopyFrom tasks).isEmpty

/-! ## Theorems -/

@[simp] theorem lookupLabel_nil (key : String) : lookupLabel [] key = none := rfl

theorem lookupLabel_append (l₁ l₂ : List (String × List String)) (key : String) :
    lookupLabel (l₁ ++ l₂) key =
      (lookupLabel l₁ key).elim (lookupLabel l₂ key) some := by
  induction l₁ with
  | nil => simp [lookupLabel]
  | cons p rest ih =>
    obtain ⟨k, v⟩ := p
    by_cases h : k = key <;> simp [lookupLabel, h, ih]

/-- An existing binding survives `addLocationLabel` untouched: rebinding never
overwrites. -/
theorem addLocationLabel_preserves (st : GenState) (label : String) (paths : List String)
    (k : String) (v : List String) (h : lookupLabel st.locationLabels k = some v) :
    lookupLabel (addLocationLabel st label paths).locationLabels k = some v := by
  unfold addLocationLabel
  rcases hx : lookupLabel st.locationLabels label with _ | old
  all_goals by_cases hf : st.firstLabel = "" <;>
    simp [hf, hx, lookupLabel_append, h]

/-- A fresh label gets bound to exactly the supplied path list. -/
theorem addLocationLabel_lookup_fresh (st : GenState) (label : String) (paths : List String)
    (h : lookupLabel st.locationLabels label = none) :
    lookupLabel (addLocationLabel st label paths).locationLabels label = some paths := by
  unfold addLocationLabel
  by_cases hf : st.firstLabel = "" <;>
    simp [hf, h, lookupLabel_append, lookupLabel]

/-- On a fresh label, `addLocationLabel` adds no error. -/
theorem addLocationLabel_fresh_errors (st : GenState) (label : String) (paths : List String)
    (h : lookupLabel st.locationLabels label = none) :
    (addLocationLabel st label paths).errors = st.errors := by
  unfold addLocationLabel
  by_cases hf : st.firstLabel = "" <;> simp [hf, h]

/-- Keys other than the one being added are unaffected. -/
theorem addLocationLabel_lookup_other (st : GenState) (label : String) (paths : List String)
    (k : String) (hk : k ≠ label) :
    lookupLabel (addLocationLabel st label paths).locationLabels k =
      lookupLabel st.locationLabels k := by
  unfold addLocationLabel
  rcases hx : lookupLabel st.locationLabels label with _ | old
  all_goals by_cases hf : st.firstLabel = "" <;>
    simp [hf, hx, lookupLabel_append, lookupLabel, Ne.symm hk] <;>
    rcases lookupLabel st.locationLabels k with _ | v <;> simp

/-- Claim C1 (corrected), main theorem. Registering an already-bound label always
reports a `multipleLabels` error naming the old and the new path sets —
whether or not the new path list equals the old one — and the original
binding is kept. -/
theorem addLocationLabel_rebind_always_errors (st : GenState) (label : String)
    (newPaths oldPaths : List String)
    (h : lookupLabel st.locationLabels label = some oldPaths) :
    (addLocationLabel st label newPaths).errors
        = st.errors ++ [.multipleLabels label oldPaths newPaths] ∧
      lookupLabel (addLocationLabel st label newPaths).locationLabels label
        = some oldPaths := by
  unfold addLocationLabel
  by_cases hf : st.firstLabel = "" <;> simp [hf, h]

/-- Witness for `addLocationLabel_rebind_always_errors` at a concrete state. -/
theorem addLocationLabel_rebind_always_errors_witness :
    (addLocationLabel { locationLabels := [("x", ["p"])] } "x" ["q"]).errors
        = [] ++ [.multipleLabels "x" ["p"] ["q"]] ∧
      lookupLabel (addLocationLabel { locationLabels := [("x", ["p"])] } "x" ["q"]).locationLabels "x"
        = some ["p"] :=
  addLocationLabel_rebind_always_errors { locationLabels := [("x", ["p"])] } "x" ["q"] ["p"]
    (by decide)

/-- Claim C1, counterexample to the claim as stated: rebinding the label `"x"`
with the *identical* path list `["p"]` does report an error, contradicting
"registering L a second time with a path list identical to the one already
registered never reports an error". -/
theorem rebind_same_paths_still_errors :
    (addLocationLabel (addLocationLabel {} "x" ["p"]) "x" ["p"]).errors
      = [.multipleLabels "x" ["p"] ["p"]] := by decide

theorem string_mk_data (s : String) : String.mk s.data = s := rfl

theorem ne_of_data_length {s t : String} (h : s.data.length ≠ t.data.length) : s ≠ t :=
  fun he => h (by rw [he])

/-- Substituting `$(location L)` reduces to the label branch with the trimmed label. -/
theorem genruleSubst_location_label (env : GenruleEnv) (L : String) :
    genruleSubst env ("location " ++ L) =
      locationLabelCase env (String.mk (trimChars L.data)) := by
  have h9 : "location ".data.length = 9 := rfl
  have hd : ("location " ++ L).data = "location ".data ++ L.data := String.data_append ..
  have hlen : ("location " ++ L).data.length = 9 + L.data.length := by
    rw [hd, List.length_append, h9]
  have hne1 : "location " ++ L ≠ "location" := ne_of_data_length (by
    have h8 : ("location" : String).data.length = 8 := rfl
    rw [hlen, h8]; omega)
  have hne2 : "location " ++ L ≠ "in" := ne_of_data_length (by
    have : ("in" : String).data.length = 2 := rfl
    rw [hlen, this]; omega)
  have hne3 : "location " ++ L ≠ "out" := ne_of_data_length (by
    have : ("out" : String).data.length = 3 := rfl
    rw [hlen, this]; omega)
  have hne4 : "location " ++ L ≠ "depfile" := ne_of_data_length (by
    have : ("depfile" : String).data.length = 7 := rfl
    rw [hlen, this]; omega)
  have hne5 : "location " ++ L ≠ "genDir" := ne_of_data_length (by
    have : ("genDir" : String).data.length = 6 := rfl
    rw [hlen, this]; omega)
  have hpre : "location ".data <+: ("location " ++ L).data := by
    rw [hd]; exact List.prefix_append ..
  have hdrop : ("location " ++ L).data.drop 9 = L.data := by
    have := List.drop_left "location ".data L.data
    rw [h9] at this; rw [hd, this]
  simp [genruleSubst, hne1, hne2, hne3, hne4, hne5, List.isPrefixOf_iff_prefix, hpre, hdrop]

/-- Substituting `$(locations L)` reduces to the plural label branch with the trimmed
label. -/
theorem genruleSubst_locations_label (env : GenruleEnv) (L : String) :
    genruleSubst env ("locations " ++ L) =
      locationsLabelCase env (String.mk (trimChars L.data)) := by
  have h10 : "locations ".data.length = 10 := rfl
  have hd : ("locations " ++ L).data = "locations ".data ++ L.data := String.data_append ..
  have hlen : ("locations " ++ L).data.length = 10 + L.data.length := by
    rw [hd, List.length_append, h10]
  have hne1 : "locations " ++ L ≠ "location" := ne_of_data_length (by
    have h8 : ("location" : String).data.length = 8 := rfl
    rw [hlen, h8]; omega)
  have hne2 : "locations " ++ L ≠ "in" := ne_of_data_length (by
    have : ("in" : String).data.length = 2 := rfl
    rw [hlen, this]; omega)
  have hne3 : "locations " ++ L ≠ "out" := ne_of_data_length (by
    have : ("out" : String).data.length = 3 := rfl
    rw [hlen, this]; omega)
  have hne4 : "locations " ++ L ≠ "depfile" := ne_of_data_length (by
    have : ("depfile" : String).data.length = 7 := rfl
    rw [hlen, this]; omega)
  have hne5 : "locations " ++ L ≠ "genDir" := ne_of_data_length (by
    have : ("genDir" : String).data.length = 6 := rfl
    rw [hlen, this]; omega)
  have hnp : ¬ ("location ".data <+: ("locations " ++ L).data) := by
    rw [hd]
    have e1 : "location ".data = "location".data ++ [' '] := rfl
    have e2 : "locations ".data = "location".data ++ ['s', ' '] := rfl
    rw [e1, e2, List.append_assoc, List.prefix_append_right_inj]
    intro h
    exact absurd (List.cons_prefix_cons.mp h).1 (by decide)
  have hpre : "locations ".data <+: ("locations " ++ L).data := by
    rw [hd]; exact List.prefix_append ..
  have hdrop : ("locations " ++ L).data.drop 10 = L.data := by
    have := List.drop_left "locations ".data L.data
    rw [h10] at this; rw [hd, this]
  simp [genruleSubst, hne1, hne2, hne3, hne4, hne5, List.isPrefixOf_iff_prefix, hnp, hpre,
    hdrop]

/-- The unqualified `$(location)` reduces to the default-label branch. -/
theorem genruleSubst_location_default (env : GenruleEnv) :
    genruleSubst env "location" = locationDefaultCase env := rfl

/-- Claim C2. For a bound label `L` (given trimmed, as the expander trims the
label text): `$(location L)` succeeds, yielding `L`'s single path, iff `L`
resolves to exactly one path — failing when `L` is unknown, has zero paths,
or has more than one; and `$(locations L)` succeeds, yielding `L`'s paths
space-joined, iff `L` is known and resolves to at least one path. -/
theorem location_forms_success_iff (env : GenruleEnv) (L : String)
    (hL : trimChars L.data = L.data) :
    ((genruleSubst env ("location " ++ L)).errs = [] ↔
        ∃ p, lookupLabel env.labels L = some [p]) ∧
      (∀ p, lookupLabel env.labels L = some [p] →
        genruleSubst env ("location " ++ L) = ⟨p, [], false⟩) ∧
      ((genruleSubst env ("locations " ++ L)).errs = [] ↔
        ∃ ps, lookupLabel env.labels L = some ps ∧ ps ≠ []) ∧
      (∀ ps, lookupLabel env.labels L = some ps → ps ≠ [] →
        genruleSubst env ("locations " ++ L) = ⟨String.intercalate " " ps, [], false⟩) := by
  rw [genruleSubst_location_label, genruleSubst_locations_label, hL, string_mk_data]
  rcases h : lookupLabel env.labels L with _ | paths
  · simp [locationLabelCase, locationsLabelCase, h]
  · rcases paths with _ | ⟨p, _ | ⟨q, rest⟩⟩ <;>
      simp [locationLabelCase, locationsLabelCase, h]

/-- Witness for `location_forms_success_iff`: a two-path label fails the
singular form and succeeds the plural form. -/
theorem location_forms_success_iff_witness :
    (genruleSubst { labels := [("x", ["p", "q"])] } ("location " ++ "x")).errs ≠ [] ∧
      genruleSubst { labels := [("x", ["p", "q"])] } ("locations " ++ "x")
        = ⟨"p q", [], false⟩ := by
  have h := location_forms_success_iff { labels := [("x", ["p", "q"])] } "x" (by decide)
  refine ⟨fun he => ?_, h.2.2.2 ["p", "q"] (by decide) (by decide)⟩
  obtain ⟨p, hp⟩ := h.1.mp he
  simp [lookupLabel] at hp

/-- Claim C3. The unqualified `$(location)`: with no `tools` and no
`tool_files` it errors; otherwise it errors if the default (first-registered)
label has zero paths or more than one path; otherwise it expands to the
default label's single path. -/
theorem location_unqualified_spec (env : GenruleEnv) :
    (env.tools = [] ∧ env.toolFiles = [] →
        genruleSubst env "location" = ⟨"SOONG_ERROR", [.atLeastOneToolRequired], false⟩) ∧
      (env.tools ≠ [] ∨ env.toolFiles ≠ [] →
        ((lookupLabel env.labels env.firstLabel).getD [] = [] →
            genruleSubst env "location"
              = ⟨"SOONG_ERROR", [.defaultLabelNoFiles env.firstLabel], false⟩) ∧
          (∀ p q rest, (lookupLabel env.labels env.firstLabel).getD [] = p :: q :: rest →
            genruleSubst env "location"
              = ⟨"SOONG_ERROR", [.defaultLabelMultipleFiles env.firstLabel], false⟩) ∧
          (∀ p, (lookupLabel env.labels env.firstLabel).getD [] = [p] →
            genruleSubst env "location" = ⟨p, [], false⟩)) := by
  rw [genruleSubst_location_default]
  constructor
  · rintro ⟨h1, h2⟩
    simp [locationDefaultCase, h1, h2]
  · intro hne
    have htf : ¬(env.tools.length = 0 ∧ env.toolFiles.length = 0) := by
      rintro ⟨h1, h2⟩
      rw [List.length_eq_zero] at h1 h2
      rcases hne with h | h
      · exact h h1
      · exact h h2
    refine ⟨fun h0 => ?_, fun p q rest hpq => ?_, fun p hp => ?_⟩
    · unfold locationDefaultCase
      rw [if_neg htf]
      simp [h0]
    · unfold locationDefaultCase
      rw [if_neg htf]
      simp [hpq]
    · unfold locationDefaultCase
      rw [if_neg htf]
      simp [hp]

/-- Witness for `location_unqualified_spec`: the no-tools error case and the
single-path success case at concrete environments. -/
theorem location_unqualified_spec_witness :
    genruleSubst {} "location" = ⟨"SOONG_ERROR", [.atLeastOneToolRequired], false⟩ ∧
      genruleSubst { tools := ["t"], labels := [("t", ["p"])], firstLabel := "t" } "location"
        = ⟨"p", [], false⟩ := by
  constructor
  · exact (location_unqualified_spec {}).1 ⟨rfl, rfl⟩
  · exact ((location_unqualified_spec
      { tools := ["t"], labels := [("t", ["p"])], firstLabel := "t" }).2
        (Or.inl (by decide))).2.2 "p" (by decide)

/-- Every branch of the substitution closure either reports no error or
substitutes the `"SOONG_ERROR"` sentinel. -/
theorem genruleSubst_sentinel_or_ok (env : GenruleEnv) (n : String) :
    (genruleSubst env n).text = "SOONG_ERROR" ∨ (genruleSubst env n).errs = [] := by
  unfold genruleSubst locationDefaultCase depfileCase locationLabelCase locationsLabelCase
  repeat' split
  all_goals simp

/-- Claim C8. The expansion walk never aborts on a failed reference: expanding
a template splits over concatenation (so the errors of every part of the
template are collected in the one run, later references being processed
whatever errors came before), and every reference that reports errors
substitutes the `"SOONG_ERROR"` sentinel into the output text. -/
theorem expansion_collects_all_errors (env : GenruleEnv) (p₁ p₂ : List TmplPart)
    (n : String) :
    expandTemplate env (p₁ ++ p₂) =
      ⟨(expandTemplate env p₁).out ++ (expandTemplate env p₂).out,
        (expandTemplate env p₁).errs ++ (expandTemplate env p₂).errs,
        (expandTemplate env p₁).refDepfile || (expandTemplate env p₂).refDepfile⟩ ∧
      ((genruleSubst env n).errs ≠ [] → (genruleSubst env n).text = "SOONG_ERROR") := by
  constructor
  · induction p₁ with
    | nil => simp [expandTemplate]
    | cons p rest ih =>
      cases p <;> simp [expandTemplate, ih, Bool.or_assoc, String.append_assoc]
  · intro hne
    exact (genruleSubst_sentinel_or_ok env n).resolve_right hne

/-- Witness for `expansion_collects_all_errors`: two failing references in
one template both report their errors and both leave the sentinel in the
output. -/
theorem expansion_collects_all_errors_witness :
    expandTemplate {} ([.var "bogus"] ++ [.var "depfile", .lit "!"]) =
        ⟨"SOONG_ERRORSOONG_ERROR!", [.unknownVariable "bogus", .depfileNotEnabled], true⟩ ∧
      (genruleSubst {} "bogus").text = "SOONG_ERROR" := by
  have h := expansion_collects_all_errors {} [.var "bogus"] [.var "depfile", .lit "!"] "bogus"
  exact ⟨h.1.trans (by decide), h.2 (by decide)⟩

/-- Claim C7. A task whose declared output list is empty is rejected with the
`must have at least one output file` definition error before any expansion
work on its command template — no output label is registered, no raw command
is produced — and generation for the rule stops there: following tasks are
not processed. -/
theorem no_outputs_rejected_before_expansion (props : GenProps) (st : GenState)
    (t : TaskT) (rest : List TaskT) (h : t.out = []) :
    runTasks props st (t :: rest)
        = { st with errors := st.errors ++ [.mustHaveOutput] } ∧
      (runTasks props st (t :: rest)).rawCommands = st.rawCommands ∧
      (runTasks props st (t :: rest)).locationLabels = st.locationLabels := by
  simp [runTasks, runTask, h]

/-- Witness for `no_outputs_rejected_before_expansion`: a zero-output task
followed by a well-formed task; the latter is never reached. -/
theorem no_outputs_rejected_before_expansion_witness :
    runTasks {} {} [{ out := [], cmd := [.var "in"] },
        { out := [GPath.moduleGen ["b.txt"]] }]
        = { errors := [.mustHaveOutput] } ∧
      (runTasks {} {} [{ out := [], cmd := [.var "in"] },
        { out := [GPath.moduleGen ["b.txt"]] }]).rawCommands = [] := by
  have h := no_outputs_rejected_before_expansion {} {} { out := [], cmd := [.var "in"] }
    [{ out := [GPath.moduleGen ["b.txt"]] }] rfl
  exact ⟨h.1.trans (by decide), h.2.1⟩

/-! ## Depfile validation (C4) -/

/-- A substitution marks the depfile as referenced exactly when the variable
is `depfile`. -/
theorem genruleSubst_refDepfile (env : GenruleEnv) (n : String) :
    (genruleSubst env n).refDepfile = true ↔ n = "depfile" := by
  unfold genruleSubst locationDefaultCase depfileCase locationLabelCase locationsLabelCase
  repeat' split
  all_goals simp_all

/-- A template's expansion marks the depfile as referenced exactly when the
template contains a `$(depfile)` reference. -/
theorem expandTemplate_refDepfile (env : GenruleEnv) (parts : List TmplPart) :
    (expandTemplate env parts).refDepfile = true ↔ TmplPart.var "depfile" ∈ parts := by
  induction parts with
  | nil => simp [expandTemplate]
  | cons p rest ih =>
    cases p with
    | lit s => simp [expandTemplate, ih]
    | var n =>
      simp only [expandTemplate, Bool.or_eq_true, ih, List.mem_cons, genruleSubst_refDepfile]
      constructor
      · rintro (h | h)
        · exact Or.inl (by rw [h])
        · exact Or.inr h
      · rintro (h | h)
        · exact Or.inl (TmplPart.var.inj h).symm
        · exact Or.inr h

/-- With the depfile property unset, `$(depfile)` reports the misuse error
and substitutes the sentinel. -/
theorem genruleSubst_depfile_disabled (env : GenruleEnv) (hd : env.depfileProp = false) :
    genruleSubst env "depfile" = ⟨"SOONG_ERROR", [.depfileNotEnabled], true⟩ := by
  simp [genruleSubst, depfileCase, hd]

/-- With the depfile property set, `$(depfile)` expands to the sandbox
depfile sentinel with no error. -/
theorem genruleSubst_depfile_enabled (env : GenruleEnv) (hd : env.depfileProp = true) :
    genruleSubst env "depfile" = ⟨"__SBOX_DEPFILE__", [], true⟩ := by
  simp [genruleSubst, depfileCase, hd]

/-- With the depfile property set, no reference ever reports the
`$(depfile) used without depfile property` error. -/
theorem genruleSubst_no_depfile_error (env : GenruleEnv) (hd : env.depfileProp = true)
    (n : String) : GenError.depfileNotEnabled ∉ (genruleSubst env n).errs := by
  unfold genruleSubst locationDefaultCase depfileCase locationLabelCase locationsLabelCase
  repeat' split
  all_goals simp_all

theorem expandTemplate_no_depfile_error (env : GenruleEnv) (hd : env.depfileProp = true)
    (parts : List TmplPart) :
    GenError.depfileNotEnabled ∉ (expandTemplate env parts).errs := by
  induction parts with
  | nil => simp [expandTemplate]
  | cons p rest ih =>
    cases p with
    | lit s => simpa [expandTemplate] using ih
    | var n =>
      simp only [expandTemplate, List.mem_append]
      rintro (h | h)
      · exact genruleSubst_no_depfile_error env hd n h
      · exact ih h

/-- The substitution closure never emits the post-expansion
`depfileNotReferenced` error (only the check after expansion does). -/
theorem genruleSubst_no_notReferenced (env : GenruleEnv) (n : String) :
    GenError.depfileNotReferenced ∉ (genruleSubst env n).errs := by
  unfold genruleSubst locationDefaultCase depfileCase locationLabelCase locationsLabelCase
  repeat' split
  all_goals simp_all

theorem expandTemplate_no_notReferenced (env : GenruleEnv) (parts : List TmplPart) :
    GenError.depfileNotReferenced ∉ (expandTemplate env parts).errs := by
  induction parts with
  | nil => simp [expandTemplate]
  | cons p rest ih =>
    cases p with
    | lit s => simpa [expandTemplate] using ih
    | var n =>
      simp only [expandTemplate, List.mem_append]
      rintro (h | h)
      · exact genruleSubst_no_notReferenced env n h
      · exact ih h

/-- With the depfile property unset, a template containing `$(depfile)`
reports the misuse error. -/
theorem expandTemplate_depfile_disabled_mem (env : GenruleEnv)
    (hd : env.depfileProp = false) (parts : List TmplPart)
    (hm : TmplPart.var "depfile" ∈ parts) :
    GenError.depfileNotEnabled ∈ (expandTemplate env parts).errs := by
  induction parts with
  | nil => simp at hm
  | cons p rest ih =>
    rcases List.mem_cons.mp hm with he | hm'
    · rw [← he]
      simp [expandTemplate, genruleSubst_depfile_disabled env hd]
    · cases p with
      | lit s => simpa [expandTemplate] using ih hm'
      | var n =>
        simp only [expandTemplate, List.mem_append]
        exact Or.inr (ih hm')

/-- The function `addLocationLabel` only ever appends a label-conflict error. -/
theorem addLocationLabel_errors_mem (st : GenState) (label : String) (paths : List String)
    (e : GenError) (he : e ∈ (addLocationLabel st label paths).errors) :
    e ∈ st.errors ∨ ∃ old new, e = .multipleLabels label old new := by
  unfold addLocationLabel at he
  by_cases hf : st.firstLabel = "" <;>
    rcases hx : lookupLabel st.locationLabels label with _ | old <;>
    simp [hf, hx] at he
  case pos.some | neg.some =>
    rcases he with h | h
    · exact Or.inl h
    · exact Or.inr ⟨_, _, h⟩
  all_goals exact Or.inl he

/-- The loop `registerOutsList` only ever appends label-conflict errors. -/
theorem registerOutsList_errors (genDir : GPath) (st : GenState) (l : List GPath)
    (e : GenError) (he : e ∈ (registerOutsList genDir st l).errors) :
    e ∈ st.errors ∨ ∃ lab old new, e = .multipleLabels lab old new := by
  induction l generalizing st with
  | nil => exact Or.inl he
  | cons o rest ih =>
    unfold registerOutsList at he
    rcases ih (addLocationLabel st o.rel [sboxPathForOutput o genDir]) he with h | h
    · rcases addLocationLabel_errors_mem st o.rel [sboxPathForOutput o genDir] e h with
        h' | ⟨old, new, h'⟩
      · exact Or.inl h'
      · exact Or.inr ⟨_, _, _, h'⟩
    · exact Or.inr h

/-- Claim C4. Depfile validation: (i) a template containing `$(depfile)` while
the depfile property is false reports the depfile-misuse error; (ii) a rule
with depfile=true whose template never references `$(depfile)` fails with
the post-expansion misuse error and generation stops; (iii) with
depfile=true and a referencing template, the reference expands to the
`__SBOX_DEPFILE__` sentinel and the task raises neither depfile error. -/
theorem depfile_validation (props : GenProps) (st : GenState) (t : TaskT)
    (ht : t.out ≠ []) :
    (props.depfileProp = false → TmplPart.var "depfile" ∈ t.cmd →
        GenError.depfileNotEnabled ∈ (runTask props st t).1.errors) ∧
      (props.depfileProp = true → TmplPart.var "depfile" ∉ t.cmd →
        GenError.depfileNotReferenced ∈ (runTask props st t).1.errors ∧
          (runTask props st t).2 = false) ∧
      (props.depfileProp = true → TmplPart.var "depfile" ∈ t.cmd →
        genruleSubst (taskEnv props (registerOuts st t) t) "depfile"
            = ⟨"__SBOX_DEPFILE__", [], true⟩ ∧
          (GenError.depfileNotEnabled ∉ st.errors →
            GenError.depfileNotEnabled ∉ (runTask props st t).1.errors) ∧
          (GenError.depfileNotReferenced ∉ st.errors →
            GenError.depfileNotReferenced ∉ (runTask props st t).1.errors)) := by
  have henv : (taskEnv props (registerOuts st t) t).depfileProp = props.depfileProp := rfl
  refine ⟨fun hp hm => ?_, fun hp hm => ?_, fun hp hm => ?_⟩
  · unfold runTask
    rw [if_neg ht]
    have hmem : GenError.depfileNotEnabled
        ∈ (expandTemplate (taskEnv props (registerOuts st t) t) t.cmd).errs :=
      expandTemplate_depfile_disabled_mem _ (henv.trans hp) t.cmd hm
    repeat' split
    all_goals by_cases hc : props.depfileProp = true
        ∧ (expandTemplate (taskEnv props (registerOuts st t) t) t.cmd).refDepfile = false <;>
      simp [hc, hmem]
  · have href : (expandTemplate (taskEnv props (registerOuts st t) t) t.cmd).refDepfile
        = false := by
      rw [← Bool.not_eq_true, expandTemplate_refDepfile]
      exact hm
    unfold runTask
    rw [if_neg ht, if_pos ⟨hp, href⟩]
    simp
  · refine ⟨genruleSubst_depfile_enabled _ (henv.trans hp), fun h0 hmem => ?_,
      fun h0 hmem => ?_⟩
    · have href : (expandTemplate (taskEnv props (registerOuts st t) t) t.cmd).refDepfile
          = true := (expandTemplate_refDepfile _ _).mpr hm
      unfold runTask at hmem
      rw [if_neg ht,
        if_neg (show ¬(props.depfileProp = true
            ∧ (expandTemplate (taskEnv props (registerOuts st t) t) t.cmd).refDepfile = false)
          by rw [href]; rintro ⟨_, h⟩; exact Bool.noConfusion h)] at hmem
      have hnot := expandTemplate_no_depfile_error (taskEnv props (registerOuts st t) t)
        (henv.trans hp) t.cmd
      have hreg : GenError.depfileNotEnabled ∉ (registerOuts st t).errors := by
        intro hin
        rcases registerOutsList_errors t.genDir st t.out _ hin with h | ⟨_, _, _, h⟩
        · exact h0 h
        · exact GenError.noConfusion h
      split at hmem <;> simp_all
    · have href : (expandTemplate (taskEnv props (registerOuts st t) t) t.cmd).refDepfile
          = true := (expandTemplate_refDepfile _ _).mpr hm
      unfold runTask at hmem
      rw [if_neg ht,
        if_neg (show ¬(props.depfileProp = true
            ∧ (expandTemplate (taskEnv props (registerOuts st t) t) t.cmd).refDepfile = false)
          by rw [href]; rintro ⟨_, h⟩; exact Bool.noConfusion h)] at hmem
      have hnot := expandTemplate_no_notReferenced (taskEnv props (registerOuts st t) t) t.cmd
      have hreg : GenError.depfileNotReferenced ∉ (registerOuts st t).errors := by
        intro hin
        rcases registerOutsList_errors t.genDir st t.out _ hin with h | ⟨_, _, _, h⟩
        · exact h0 h
        · exact GenError.noConfusion h
      split at hmem <;> simp_all

/-- Witness for `depfile_validation`: a depfile-enabled rule whose template
omits `$(depfile)` gets the post-expansion error, and one that references it
expands the reference to the sentinel. -/
theorem depfile_validation_witness :
    GenError.depfileNotReferenced ∈
        (runTask { depfileProp := true } {}
          { out := [GPath.moduleGen ["o"]], cmd := [.lit "gen"] }).1.errors ∧
      genruleSubst (taskEnv { depfileProp := true }
          (registerOuts {} { out := [GPath.moduleGen ["o"]], cmd := [.var "depfile"] })
          { out := [GPath.moduleGen ["o"]], cmd := [.var "depfile"] }) "depfile"
        = ⟨"__SBOX_DEPFILE__", [], true⟩ := by
  have h1 := (depfile_validation { depfileProp := true } {}
      { out := [GPath.moduleGen ["o"]], cmd := [.lit "gen"] } (by decide)).2.1 rfl (by decide)
  have h2 := (depfile_validation { depfileProp := true } {}
      { out := [GPath.moduleGen ["o"]], cmd := [.var "depfile"] } (by decide)).2.2 rfl
    (by decide)
  exact ⟨h1.1, h2.1⟩

/-! ## Outputs registered as location labels (C10) -/

/-- A fresh key bound somewhere in the output-registration loop stays bound
to its sandbox path, provided the loop's keys are distinct. -/
theorem registerOutsList_lookup (genDir : GPath) (st : GenState) (l : List GPath)
    (o : GPath) (ho : o ∈ l) (hnodup : (l.map GPath.rel).Nodup)
    (hfresh : lookupLabel st.locationLabels o.rel = none) :
    lookupLabel (registerOutsList genDir st l).locationLabels o.rel
      = some [sboxPathForOutput o genDir] := by
  induction l generalizing st with
  | nil => simp at ho
  | cons o' rest ih =>
    rw [List.map_cons, List.nodup_cons] at hnodup
    rcases List.mem_cons.mp ho with he | hm
    · subst he
      have hbound := addLocationLabel_lookup_fresh st o.rel [sboxPathForOutput o genDir] hfresh
      clear hfresh ho hnodup ih
      unfold registerOutsList
      generalize addLocationLabel st o.rel [sboxPathForOutput o genDir] = st1 at hbound ⊢
      induction rest generalizing st1 with
      | nil => exact hbound
      | cons o2 rest2 ih2 =>
        unfold registerOutsList
        exact ih2 _ (addLocationLabel_preserves st1 o2.rel [sboxPathForOutput o2 genDir]
          _ _ hbound)
    · have hne : o.rel ≠ o'.rel := by
        intro he
        exact hnodup.1 (by rw [← he]; exact List.mem_map_of_mem GPath.rel hm)
      unfold registerOutsList
      refine ih _ hm hnodup.2 ?_
      rw [addLocationLabel_lookup_other st o'.rel [sboxPathForOutput o' genDir] o.rel hne]
      exact hfresh

/-- Claim C10. Before a task's command template is expanded, every declared
output file is registered as a location label under its rule-relative name,
bound to the output's sandbox-mapped path (even though outputs are not among
the tool / tool-file / source label kinds): the label map the task's
expansion uses contains the binding, `$(location <output-name>)` resolves to
the output's sandbox path, and the task leaves the binding in place. -/
theorem outputs_registered_as_labels (props : GenProps) (st : GenState) (t : TaskT)
    (o : GPath) (ho : o ∈ t.out)
    (hnodup : (t.out.map GPath.rel).Nodup)
    (hfresh : lookupLabel st.locationLabels o.rel = none)
    (htrim : trimChars o.rel.data = o.rel.data) :
    lookupLabel (taskEnv props (registerOuts st t) t).labels o.rel
        = some [sboxPathForOutput o t.genDir] ∧
      genruleSubst (taskEnv props (registerOuts st t) t) ("location " ++ o.rel)
        = ⟨sboxPathForOutput o t.genDir, [], false⟩ ∧
      lookupLabel (runTask props st t).1.locationLabels o.rel
        = some [sboxPathForOutput o t.genDir] := by
  have h1 : lookupLabel (registerOuts st t).locationLabels o.rel
      = some [sboxPathForOutput o t.genDir] :=
    registerOutsList_lookup t.genDir st t.out o ho hnodup hfresh
  have ht : t.out ≠ [] := fun he => by rw [he] at ho; exact List.not_mem_nil o ho
  have h3 : (runTask props st t).1.locationLabels = (registerOuts st t).locationLabels := by
    unfold runTask
    rw [if_neg ht]
    by_cases hc : props.depfileProp = true
        ∧ (expandTemplate (taskEnv props (registerOuts st t) t) t.cmd).refDepfile = false
    · rw [if_pos hc]
    · rw [if_neg hc]
      by_cases hcp : t.copyTo ≠ []
      · rw [if_pos hcp]
      · rw [if_neg hcp]
  refine ⟨h1, ?_, h3 ▸ h1⟩
  rw [genruleSubst_location_label, htrim, string_mk_data]
  unfold locationLabelCase
  rw [show (taskEnv props (registerOuts st t) t).labels
    = (registerOuts st t).locationLabels from rfl, h1]
  simp

/-- Witness for `outputs_registered_as_labels`: a rule declaring output
`b.txt` can reference `$(location b.txt)` and gets its sandbox path. -/
theorem outputs_registered_as_labels_witness :
    genruleSubst (taskEnv {} (registerOuts {} { out := [GPath.moduleGen ["b.txt"]] })
        { out := [GPath.moduleGen ["b.txt"]] })
        ("location " ++ (GPath.moduleGen ["b.txt"]).rel)
      = ⟨sboxPathForOutput (GPath.moduleGen ["b.txt"]) (GPath.moduleGen []), [], false⟩ :=
  (outputs_registered_as_labels {} {} { out := [GPath.moduleGen ["b.txt"]] }
    (GPath.moduleGen ["b.txt"]) (by decide) (by decide) (by decide) (by decide)).2.1

theorem lookupLabel_append_single (m : List (String × List String)) (k0 k : String)
    (v0 : List String) :
    lookupLabel (m ++ [(k0, v0)]) k
      = match lookupLabel m k with
        | some v => some v
        | none => if k0 = k then some v0 else none := by
  rw [lookupLabel_append]
  rcases lookupLabel m k with _ | v <;> simp [lookupLabel]

/-- Lookup after one `BindStep`: the key gets its binding when fresh, all
other lookups are unchanged. -/
theorem bindStep_lookup {α : Type} (key : α → String) (bnd : α → Option (List String))
    (f : GenState → α → GenState) (x : α) (hx : BindStep key bnd f x) (s : GenState)
    (k : String) :
    lookupLabel (f s x).locationLabels k
      = if key x = k ∧ bnd x ≠ none ∧ lookupLabel s.locationLabels (key x) = none
        then bnd x
        else lookupLabel s.locationLabels k := by
  have hl := (hx s).1
  rcases hb : bnd x with _ | v0 <;> rw [hb] at hl
  · rw [hl]
    simp [hb]
  · rcases hky : lookupLabel s.locationLabels (key x) with _ | w <;> rw [hky] at hl <;>
      rw [hl]
    · rw [lookupLabel_append_single]
      by_cases hk : key x = k
      · subst hk
        rw [hky]
        simp [hb]
      · simp [hk]
        rcases lookupLabel s.locationLabels k with _ | v <;> simp [hk]
    · simp [hky]

/-- Existing bindings survive a bind fold. -/
theorem bindFold_preserves {α : Type} (key : α → String) (bnd : α → Option (List String))
    (f : GenState → α → GenState) (xs : List α)
    (hall : ∀ x ∈ xs, BindStep key bnd f x) (s : GenState) (k : String) (v : List String)
    (h : lookupLabel s.locationLabels k = some v) :
    lookupLabel (xs.foldl f s).locationLabels k = some v := by
  induction xs generalizing s with
  | nil => exact h
  | cons x rest ih =>
    refine ih (fun y hy => hall y (List.mem_cons_of_mem x hy)) (f s x) ?_
    rw [bindStep_lookup key bnd f x (hall x (List.mem_cons_self x rest)) s k]
    split
    · rename_i hcond
      rw [← hcond.1] at h
      rw [h] at hcond
      exact absurd hcond.2.2 (by simp)
    · exact h

/-- A key that no element of the fold binds is looked up unchanged. -/
theorem bindFold_lookup_other {α : Type} (key : α → String) (bnd : α → Option (List String))
    (f : GenState → α → GenState) (xs : List α)
    (hall : ∀ x ∈ xs, BindStep key bnd f x) (s : GenState) (k : String)
    (hk : ∀ x ∈ xs, key x = k → bnd x = none) :
    lookupLabel (xs.foldl f s).locationLabels k = lookupLabel s.locationLabels k := by
  induction xs generalizing s with
  | nil => rfl
  | cons x rest ih =>
    rw [List.foldl_cons,
      ih (fun y hy => hall y (List.mem_cons_of_mem x hy)) (f s x)
        (fun y hy => hk y (List.mem_cons_of_mem x hy)),
      bindStep_lookup key bnd f x (hall x (List.mem_cons_self x rest)) s k]
    split
    · rename_i hcond
      exact absurd (hk x (List.mem_cons_self x rest) hcond.1) hcond.2.1
    · rfl

/-- A fresh key bound by some element of the fold (with duplicate-free
keys) ends up bound to that element's value. -/
theorem bindFold_lookup_bind {α : Type} (key : α → String) (bnd : α → Option (List String))
    (f : GenState → α → GenState) (xs : List α)
    (hall : ∀ x ∈ xs, BindStep key bnd f x) (s : GenState) (x : α) (hx : x ∈ xs)
    (hnodup : (xs.map key).Nodup)
    (hfresh : lookupLabel s.locationLabels (key x) = none)
    (v : List String) (hb : bnd x = some v) :
    lookupLabel (xs.foldl f s).locationLabels (key x) = some v := by
  induction xs generalizing s with
  | nil => cases hx
  | cons y rest ih =>
    rw [List.map_cons, List.nodup_cons] at hnodup
    rw [List.foldl_cons]
    rcases List.mem_cons.mp hx with rfl | hm
    · refine bindFold_preserves key bnd f rest
        (fun z hz => hall z (List.mem_cons_of_mem x hz)) (f s x) (key x) v ?_
      rw [bindStep_lookup key bnd f x (hall x (List.mem_cons_self x rest)) s (key x)]
      rw [if_pos ⟨rfl, by rw [hb]; exact fun h => Option.noConfusion h, hfresh⟩]
      exact hb
    · have hkne : key x ≠ key y := fun he =>
        hnodup.1 (he ▸ List.mem_map_of_mem key hm)
      refine ih (fun z hz => hall z (List.mem_cons_of_mem y hz)) (f s y) hm hnodup.2 ?_
      rw [bindStep_lookup key bnd f y (hall y (List.mem_cons_self y rest)) s (key x)]
      rw [if_neg (fun hcond => hkne hcond.1.symm)]
      exact hfresh

/-- A bind fold over duplicate-free, initially-fresh keys adds no error. -/
theorem bindFold_errors {α : Type} (key : α → String) (bnd : α → Option (List String))
    (f : GenState → α → GenState) (xs : List α)
    (hall : ∀ x ∈ xs, BindStep key bnd f x) (s : GenState)
    (hnodup : (xs.map key).Nodup)
    (hfresh : ∀ x ∈ xs, bnd x ≠ none → lookupLabel s.locationLabels (key x) = none) :
    (xs.foldl f s).errors = s.errors := by
  induction xs generalizing s with
  | nil => rfl
  | cons x rest ih =>
    rw [List.map_cons, List.nodup_cons] at hnodup
    have hstep : (f s x).errors = s.errors := by
      rcases hb : bnd x with _ | v0
      · exact ((hall x (List.mem_cons_self x rest)) s).2.1 hb
      · exact ((hall x (List.mem_cons_self x rest)) s).2.2
          (hfresh x (List.mem_cons_self x rest) (by rw [hb]; exact fun h => Option.noConfusion h))
    have hfresh' : ∀ y ∈ rest, bnd y ≠ none →
        lookupLabel (f s x).locationLabels (key y) = none := by
      intro y hy hbny
      rw [bindStep_lookup key bnd f x (hall x (List.mem_cons_self x rest)) s (key y)]
      rw [if_neg (show ¬(key x = key y ∧ bnd x ≠ none
            ∧ lookupLabel s.locationLabels (key x) = none) from
        fun hcond => hnodup.1 (hcond.1 ▸ List.mem_map_of_mem key hy))]
      exact hfresh y (List.mem_cons_of_mem x hy) hbny
    rw [List.foldl_cons,
      ih (fun y hy => hall y (List.mem_cons_of_mem x hy)) (f s x) hnodup.2 hfresh', hstep]

theorem bindFold_missing_mono {α : Type} (f : GenState → α → GenState) (xs : List α)
    (hall : ∀ x ∈ xs, MissingMono f x) (s : GenState) (m : String)
    (h : m ∈ s.missingDeps) : m ∈ (xs.foldl f s).missingDeps := by
  induction xs generalizing s with
  | nil => exact h
  | cons x rest ih =>
    exact ih (fun y hy => hall y (List.mem_cons_of_mem x hy)) (f s x)
      (hall x (List.mem_cons_self x rest) s m h)

theorem bindFold_missing_of_mem {α : Type} (f : GenState → α → GenState) (xs : List α)
    (hall : ∀ x ∈ xs, MissingMono f x) (s : GenState) (m : String) (x : α)
    (hx : x ∈ xs) (hadd : ∀ s' : GenState, m ∈ (f s' x).missingDeps) :
    m ∈ (xs.foldl f s).missingDeps := by
  induction xs generalizing s with
  | nil => cases hx
  | cons y rest ih =>
    rw [List.foldl_cons]
    rcases List.mem_cons.mp hx with rfl | hm
    · exact bindFold_missing_mono f rest (fun z hz => hall z (List.mem_cons_of_mem x hz))
        (f s x) m (hadd s)
    · exact ih (fun z hz => hall z (List.mem_cons_of_mem y hz)) (f s y) hm

/-! ### The resolution phases are bind folds -/

theorem addLocationLabel_locationLabels (st : GenState) (label : String)
    (paths : List String) :
    (addLocationLabel st label paths).locationLabels
      = match lookupLabel st.locationLabels label with
        | none => st.locationLabels ++ [(label, paths)]
        | some _ => st.locationLabels := by
  unfold addLocationLabel
  by_cases hf : st.firstLabel = "" <;>
    rcases h : lookupLabel st.locationLabels label with _ | v <;> simp [hf, h]

theorem addLocationLabel_missingDeps (st : GenState) (label : String)
    (paths : List String) :
    (addLocationLabel st label paths).missingDeps = st.missingDeps := by
  unfold addLocationLabel
  by_cases hf : st.firstLabel = "" <;>
    rcases h : lookupLabel st.locationLabels label with _ | v <;> simp [hf, h]

/-- A fold step of the form `addLocationLabel (u s) (key x) v` (where `u`
touches neither the label map nor the errors) is a `BindStep`. -/
theorem bindStep_of_add {α : Type} (key : α → String) (bnd : α → Option (List String))
    (f : GenState → α → GenState) (x : α) (u : GenState → GenState)
    (hu1 : ∀ s, (u s).locationLabels = s.locationLabels)
    (hu2 : ∀ s, (u s).errors = s.errors)
    (v : List String) (hb : bnd x = some v)
    (hf : ∀ s, f s x = addLocationLabel (u s) (key x) v) :
    BindStep key bnd f x := by
  intro s
  refine ⟨?_, ?_, ?_⟩
  · rw [hf s, hb, addLocationLabel_locationLabels, hu1 s]
  · intro h
    rw [hb] at h
    cases h
  · intro hfr
    rw [hf s, addLocationLabel_fresh_errors _ _ _ (by rw [hu1 s]; exact hfr), hu2 s]

/-- A fold step that touches neither the label map nor the errors is a
`BindStep` with no binding. -/
theorem bindStep_of_skip {α : Type} (key : α → String) (bnd : α → Option (List String))
    (f : GenState → α → GenState) (x : α)
    (hb : bnd x = none)
    (hf : ∀ s, (f s x).locationLabels = s.locationLabels ∧ (f s x).errors = s.errors) :
    BindStep key bnd f x := by
  intro s
  refine ⟨?_, fun _ => (hf s).2, fun _ => (hf s).2⟩
  rw [hb, (hf s).1]

theorem visitToolState_bindStep (t : ToolDep)
    (hres : t.res ≠ .notHostToolProvider ∧ t.res ≠ .goBinaryNoPath
      ∧ t.res ≠ .hostToolNoOutput) :
    BindStep ToolDep.label toolBnd (visitToolState true) t := by
  rcases t with ⟨lab, res⟩
  cases res with
  | hostTool p =>
    exact bindStep_of_add _ _ _ _ (fun s => { s with deps := s.deps ++ [p] })
      (fun s => rfl) (fun s => rfl) [p] rfl (fun s => rfl)
  | goBinary p =>
    exact bindStep_of_add _ _ _ _ (fun s => { s with deps := s.deps ++ [p] })
      (fun s => rfl) (fun s => rfl) [p] rfl (fun s => rfl)
  | disabledModule => exact bindStep_of_skip _ _ _ _ rfl (fun s => ⟨rfl, rfl⟩)
  | missingModule => exact bindStep_of_skip _ _ _ _ rfl (fun s => ⟨rfl, rfl⟩)
  | notHostToolProvider => exact absurd rfl hres.1
  | goBinaryNoPath => exact absurd rfl hres.2.1
  | hostToolNoOutput => exact absurd rfl hres.2.2

theorem visitToolState_missingMono (t : ToolDep) : MissingMono (visitToolState true) t := by
  intro s m hm
  rcases t with ⟨lab, res⟩
  cases res <;>
    simp [visitToolState, addLocationLabel_missingDeps, hm, List.mem_append]

theorem placeholderStep_bindStep (seen : List String) (t : ToolDep) :
    BindStep ToolDep.label (placeholderBnd seen) (placeholderStep seen) t := by
  by_cases h : t.label ∈ seen
  · exact bindStep_of_skip _ _ _ _ (by simp [placeholderBnd, h])
      (fun s => by simp [placeholderStep, h])
  · exact bindStep_of_add _ _ _ _ id (fun s => rfl) (fun s => rfl)
      [missingToolPlaceholder t.label] (by simp [placeholderBnd, h])
      (fun s => by simp [placeholderStep, h])

theorem placeholderStep_missingMono (seen : List String) (t : ToolDep) :
    MissingMono (placeholderStep seen) t := by
  intro s m hm
  by_cases h : t.label ∈ seen <;>
    simp [placeholderStep, h, addLocationLabel_missingDeps, hm]

theorem toolFileStep_bindStep (tf : String × List String) :
    BindStep Prod.fst (fun tf => some tf.2) toolFileStep tf :=
  bindStep_of_add _ _ _ _ (fun s => { s with deps := s.deps ++ tf.2 })
    (fun _ => rfl) (fun _ => rfl) tf.2 rfl (fun _ => rfl)

theorem toolFileStep_missingMono (tf : String × List String) :
    MissingMono toolFileStep tf := by
  intro s m hm
  simp [toolFileStep, addLocationLabel_missingDeps, hm]

theorem srcStep_bindStep (e : SrcEntry) :
    BindStep SrcEntry.name srcBnd (srcStep true) e := by
  by_cases h : e.missing.isEmpty
  · exact bindStep_of_add _ _ _ _ (fun s => { s with srcFiles := s.srcFiles ++ e.paths })
      (fun s => rfl) (fun s => rfl) e.paths (by simp [srcBnd, h])
      (fun s => by simp [srcStep, h])
  · exact bindStep_of_add _ _ _ _
      (fun s => { s with missingDeps := s.missingDeps ++ e.missing })
      (fun s => rfl) (fun s => rfl) [missingSrcsPlaceholder e.name]
      (by simp [srcBnd, h]) (fun s => by simp [srcStep, h])

theorem srcStep_missingMono (e : SrcEntry) : MissingMono (srcStep true) e := by
  intro s m hm
  by_cases h : e.missing.isEmpty <;>
    simp [srcStep, h, addLocationLabel_missingDeps, hm, List.mem_append]

/-- A tool the visit does not see produces no binding. -/
theorem toolBnd_eq_none_of_not_seen (t : ToolDep) (h : toolSeen t.res = false) :
    toolBnd t = none := by
  rcases t with ⟨lab, res⟩
  cases res <;> simp_all [toolSeen, toolBnd]

theorem seenLabels_mem (tools : List ToolDep) (t : ToolDep) (ht : t ∈ tools)
    (hs : toolSeen t.res = true) : t.label ∈ seenLabels tools := by
  exact List.mem_map_of_mem ToolDep.label (List.mem_filter.mpr ⟨ht, hs⟩)

/-- With duplicate-free labels, membership in `seenLabels` decides the
tool's own resolution kind. -/
theorem toolSeen_of_mem_seenLabels (tools : List ToolDep) (t : ToolDep) (ht : t ∈ tools)
    (hnodup : (tools.map ToolDep.label).Nodup) (hs : t.label ∈ seenLabels tools) :
    toolSeen t.res = true := by
  unfold seenLabels at hs
  rcases List.mem_map.mp hs with ⟨x, hx, hlab⟩
  rcases List.mem_filter.mp hx with ⟨hxt, hxs⟩
  have hxe : x = t := List.inj_on_of_nodup_map hnodup hxt ht hlab
  rw [← hxe]
  exact hxs

theorem recordMutatorMissing_spec (tools : List ToolDep) (st : GenState) :
    (recordMutatorMissing true tools st).locationLabels = st.locationLabels ∧
      (recordMutatorMissing true tools st).errors = st.errors ∧
      (recordMutatorMissing true tools st).missingDeps
        = st.missingDeps
          ++ (tools.filter (fun t => t.res = ToolRes.missingModule)).map ToolDep.label :=
  ⟨rfl, rfl, rfl⟩

/-- The facts about `resolveTools` in permissive mode over error-free,
duplicate-free, fresh tool labels: it adds no error; it binds no other key;
every disabled-or-missing tool's label gets the placeholder binding; missing
deps only grow, and a disabled tool's label is recorded among them. -/
theorem resolveTools_facts (tools : List ToolDep) (st : GenState)
    (hres : ∀ t ∈ tools, t.res ≠ .notHostToolProvider ∧ t.res ≠ .goBinaryNoPath
      ∧ t.res ≠ .hostToolNoOutput)
    (hnodup : (tools.map ToolDep.label).Nodup)
    (hfresh : ∀ t ∈ tools, lookupLabel st.locationLabels t.label = none) :
    (resolveTools true tools st).errors = st.errors ∧
      (∀ k, (∀ t ∈ tools, t.label ≠ k) →
        lookupLabel (resolveTools true tools st).locationLabels k
          = lookupLabel st.locationLabels k) ∧
      (∀ t ∈ tools, t.res = .disabledModule ∨ t.res = .missingModule →
        lookupLabel (resolveTools true tools st).locationLabels t.label
          = some [missingToolPlaceholder t.label]) ∧
      (∀ m ∈ st.missingDeps, m ∈ (resolveTools true tools st).missingDeps) ∧
      (∀ t ∈ tools, t.res = .disabledModule →
        t.label ∈ (resolveTools true tools st).missingDeps) := by
  by_cases he : tools.isEmpty
  · have hnil : tools = [] := List.isEmpty_iff.mp he
    subst hnil
    exact ⟨rfl, fun k _ => rfl, fun t ht => absurd ht (List.not_mem_nil t),
      fun m hm => hm, fun t ht => absurd ht (List.not_mem_nil t)⟩
  · have hallV : ∀ t ∈ tools, BindStep ToolDep.label toolBnd (visitToolState true) t :=
      fun t ht => visitToolState_bindStep t (hres t ht)
    have hallP : ∀ t ∈ tools, BindStep ToolDep.label (placeholderBnd (seenLabels tools))
        (placeholderStep (seenLabels tools)) t :=
      fun t _ => placeholderStep_bindStep (seenLabels tools) t
    have hrt : resolveTools true tools st
        = tools.foldl (placeholderStep (seenLabels tools))
            (tools.foldl (visitToolState true) st) := by
      unfold resolveTools
      rw [if_neg he]
      rfl
    have hA1 : (tools.foldl (visitToolState true) st).errors = st.errors :=
      bindFold_errors _ toolBnd _ tools hallV st hnodup (fun t ht _ => hfresh t ht)
    have hub : ∀ t ∈ tools, t.label ∉ seenLabels tools →
        lookupLabel (tools.foldl (visitToolState true) st).locationLabels t.label
          = none := by
      intro t ht hus
      rw [bindFold_lookup_other ToolDep.label toolBnd _ tools hallV st t.label ?_]
      · exact hfresh t ht
      · intro x hx hxk
        have hxt : x = t := List.inj_on_of_nodup_map hnodup hx ht hxk
        subst hxt
        refine toolBnd_eq_none_of_not_seen x ?_
        rcases hsx : toolSeen x.res with _ | _
        · rfl
        · exact absurd (seenLabels_mem tools x hx hsx) hus
    have hfreshP : ∀ t ∈ tools, placeholderBnd (seenLabels tools) t ≠ none →
        lookupLabel (tools.foldl (visitToolState true) st).locationLabels t.label
          = none := by
      intro t ht hbn
      refine hub t ht (fun hin => hbn ?_)
      simp [placeholderBnd, hin]
    refine ⟨?_, ?_, ?_, ?_, ?_⟩
    · rw [hrt, bindFold_errors _ (placeholderBnd (seenLabels tools)) _ tools hallP _
        hnodup hfreshP, hA1]
    · intro k hk
      rw [hrt,
        bindFold_lookup_other _ (placeholderBnd (seenLabels tools)) _ tools hallP _ k
          (fun x hx hxk => absurd hxk (hk x hx)),
        bindFold_lookup_other ToolDep.label toolBnd _ tools hallV st k
          (fun x hx hxk => absurd hxk (hk x hx))]
    · intro t ht hdm
      have hus : t.label ∉ seenLabels tools := by
        intro hin
        have := toolSeen_of_mem_seenLabels tools t ht hnodup hin
        rcases hdm with h | h <;> rw [h] at this <;> exact Bool.noConfusion this
      rw [hrt]
      exact bindFold_lookup_bind _ (placeholderBnd (seenLabels tools)) _ tools hallP _
        t ht hnodup (hub t ht hus) [missingToolPlaceholder t.label]
        (by simp [placeholderBnd, hus])
    · intro m hm
      rw [hrt]
      exact bindFold_missing_mono _ tools (fun t _ => placeholderStep_missingMono _ t) _ m
        (bindFold_missing_mono _ tools (fun t _ => visitToolState_missingMono t) st m hm)
    · intro t ht hd
      rw [hrt]
      refine bindFold_missing_mono _ tools (fun x _ => placeholderStep_missingMono _ x) _
        t.label ?_
      refine bindFold_missing_of_mem _ tools (fun x _ => visitToolState_missingMono x) st
        t.label t ht ?_
      intro s'
      rcases t with ⟨lab, res⟩
      cases res <;> simp_all [visitToolState]

/-- Claim C9. With allow-missing-dependencies enabled, over a module whose
tool/tool-file/source label names are distinct and whose tools all resolve
without hard errors: every declared tool whose producing module is disabled
or absent from the graph is bound to the `***missing tool <name>***`
placeholder path instead of failing, and its name is recorded among the
module's missing dependencies; and every source entry whose resolution
reported missing dependencies is bound to the
`***missing srcs <name>***` placeholder path, with the reported missing
dependencies recorded against the module. -/
theorem allow_missing_placeholders (tools : List ToolDep)
    (toolFiles : List (String × List String)) (srcs : List SrcEntry) (st : GenState)
    (hst1 : st.locationLabels = []) (hst2 : st.errors = [])
    (hres : ∀ t ∈ tools, t.res ≠ .notHostToolProvider ∧ t.res ≠ .goBinaryNoPath
      ∧ t.res ≠ .hostToolNoOutput)
    (hnodup : (tools.map ToolDep.label ++ toolFiles.map Prod.fst
        ++ srcs.map SrcEntry.name).Nodup) :
    (∀ t ∈ tools, t.res = .disabledModule ∨ t.res = .missingModule →
        lookupLabel (resolveLabels true tools toolFiles srcs st).locationLabels t.label
            = some [missingToolPlaceholder t.label] ∧
          t.label ∈ (resolveLabels true tools toolFiles srcs st).missingDeps) ∧
      (∀ e ∈ srcs, e.missing ≠ [] →
        lookupLabel (resolveLabels true tools toolFiles srcs st).locationLabels e.name
            = some [missingSrcsPlaceholder e.name] ∧
          ∀ m ∈ e.missing, m ∈ (resolveLabels true tools toolFiles srcs st).missingDeps) := by
  rcases List.nodup_append.mp hnodup with ⟨hnd12, hnd3, hdisj123⟩
  rcases List.nodup_append.mp hnd12 with ⟨hnd1, hnd2, hdisj12⟩
  have hallTF : ∀ tf ∈ toolFiles,
      BindStep Prod.fst (fun tf => some tf.2) toolFileStep tf :=
    fun tf _ => toolFileStep_bindStep tf
  have hallS : ∀ e ∈ srcs, BindStep SrcEntry.name srcBnd (srcStep true) e :=
    fun e _ => srcStep_bindStep e
  have hmonoTF : ∀ tf ∈ toolFiles, MissingMono toolFileStep tf :=
    fun tf _ => toolFileStep_missingMono tf
  have hmonoS : ∀ e ∈ srcs, MissingMono (srcStep true) e :=
    fun e _ => srcStep_missingMono e
  have hrm := recordMutatorMissing_spec tools st
  have hfresh0 : ∀ t ∈ tools,
      lookupLabel (recordMutatorMissing true tools st).locationLabels t.label = none := by
    intro t _
    rw [hrm.1, hst1]
    rfl
  have hRT := resolveTools_facts tools (recordMutatorMissing true tools st) hres hnd1
    hfresh0
  have hgate : (resolveTools true tools (recordMutatorMissing true tools st)).errors
      = [] := by
    rw [hRT.1, hrm.2.1, hst2]
  have hrl : resolveLabels true tools toolFiles srcs st
      = resolveSrcs true srcs (resolveToolFiles toolFiles
          (resolveTools true tools (recordMutatorMissing true tools st))) := by
    unfold resolveLabels
    simp only [hgate]
    rfl
  rw [hrl]
  unfold resolveSrcs resolveToolFiles
  constructor
  · intro t ht hdm
    have hbound := hRT.2.2.1 t ht hdm
    constructor
    · refine bindFold_preserves _ srcBnd _ srcs hallS _ t.label
        [missingToolPlaceholder t.label] ?_
      exact bindFold_preserves _ (fun tf => some tf.2) _ toolFiles hallTF _ t.label
        [missingToolPlaceholder t.label] hbound
    · have hmem1 : t.label ∈ (resolveTools true tools
          (recordMutatorMissing true tools st)).missingDeps := by
        rcases hdm with h | h
        · exact hRT.2.2.2.2 t ht h
        · refine hRT.2.2.2.1 t.label ?_
          rw [hrm.2.2]
          refine List.mem_append_right _ (List.mem_map_of_mem ToolDep.label ?_)
          exact List.mem_filter.mpr ⟨ht, by simp [h]⟩
      exact bindFold_missing_mono _ srcs hmonoS _ t.label
        (bindFold_missing_mono _ toolFiles hmonoTF _ t.label hmem1)
  · intro e he hmiss
    have hnameNotTool : ∀ t ∈ tools, t.label ≠ e.name := by
      intro t ht heq
      refine hdisj123 (List.mem_append_left _ (heq ▸ List.mem_map_of_mem ToolDep.label ht))
        (List.mem_map_of_mem SrcEntry.name he)
    have hnameNotTF : ∀ tf ∈ toolFiles, tf.1 ≠ e.name := by
      intro tf htf heq
      refine hdisj123 (List.mem_append_right _ (heq ▸ List.mem_map_of_mem Prod.fst htf))
        (List.mem_map_of_mem SrcEntry.name he)
    have hfreshF : lookupLabel (toolFiles.foldl toolFileStep
        (resolveTools true tools (recordMutatorMissing true tools st))).locationLabels
          e.name = none := by
      rw [bindFold_lookup_other _ (fun tf => some tf.2) _ toolFiles hallTF _ e.name
          (fun tf htf heq => absurd heq (hnameNotTF tf htf)),
        hRT.2.1 e.name hnameNotTool, hrm.1, hst1]
      rfl
    constructor
    · refine bindFold_lookup_bind _ srcBnd _ srcs hallS _ e he hnd3 hfreshF
        [missingSrcsPlaceholder e.name] ?_
      have : e.missing.isEmpty = false := by
        rcases hm : e.missing with _ | ⟨m, rest⟩
        · exact absurd hm hmiss
        · rfl
      simp [srcBnd, this]
    · intro m hm
      refine bindFold_missing_of_mem _ srcs hmonoS _ m e he ?_
      intro s'
      have hne : e.missing.isEmpty = false := by
        rcases hmm : e.missing with _ | ⟨m', rest⟩
        · exact absurd hmm hmiss
        · rfl
      simp [srcStep, hne, addLocationLabel_missingDeps, List.mem_append, hm]

/-- Witness for `allow_missing_placeholders`: one missing-module tool and
one source entry with a missing dependency both get placeholder bindings
and recorded missing deps. -/
theorem allow_missing_placeholders_witness :
    (lookupLabel (resolveLabels true [⟨"mytool", .missingModule⟩] []
          [⟨"mysrc", [], ["depmod"]⟩] {}).locationLabels "mytool"
        = some ["***missing tool mytool***"] ∧
      "mytool" ∈ (resolveLabels true [⟨"mytool", .missingModule⟩] []
          [⟨"mysrc", [], ["depmod"]⟩] {}).missingDeps) ∧
      (lookupLabel (resolveLabels true [⟨"mytool", .missingModule⟩] []
          [⟨"mysrc", [], ["depmod"]⟩] {}).locationLabels "mysrc"
        = some ["***missing srcs mysrc***"] ∧
      "depmod" ∈ (resolveLabels true [⟨"mytool", .missingModule⟩] []
          [⟨"mysrc", [], ["depmod"]⟩] {}).missingDeps) := by
  have h := allow_missing_placeholders [⟨"mytool", .missingModule⟩] []
    [⟨"mysrc", [], ["depmod"]⟩] {} rfl rfl
    (by intro t ht; simp at ht; subst ht; exact ⟨by simp, by simp, by simp⟩)
    (by simp)
  have h1 := h.1 ⟨"mytool", .missingModule⟩ (by simp) (Or.inr rfl)
  have h2 := h.2 ⟨"mysrc", [], ["depmod"]⟩ (by simp) (by simp)
  exact ⟨⟨h1.1, h1.2⟩, ⟨h2.1, h2.2 "depmod" (by simp)⟩⟩

/-- The inner loop in closed form: the per-file commands, the per-file
outputs, the copy targets (final names, only when sharding is active), and
the depfile from the first input's final name. -/
theorem gensrcsLoop_eq (raw : List TmplPart) (ext : String) (numShards i : Nat)
    (j0 : Bool) (l : List GPath) :
    gensrcsLoop raw ext numShards i j0 l
      = (l.map (gensrcsCommand raw ext numShards i),
         l.map (gensrcsOutFile numShards i ext),
         (if 1 < numShards then l.map (gensrcsOutFinal ext) else []),
         if j0 then l.head?.map (fun src => (gensrcsOutFinal ext src).replaceExt "d")
         else none) := by
  induction l generalizing j0 with
  | nil => cases j0 <;> simp [gensrcsLoop]
  | cons src rest ih =>
    rw [gensrcsLoop, ih false]
    cases j0 <;> by_cases hn : 1 < numShards <;> simp [hn]

/-- Claim C5. In the per-file (gensrcs) variant, each shard task's command is
the per-file commands — the template expanded independently per input with
`$(in)` bound to that single input path and `$(out)` bound to that input's
single sandbox-mapped output path, each expansion shell-escaped as a unit
and wrapped `bash -c <escaped>` — joined with the short-circuit AND `&&`. -/
theorem gensrcs_per_file_commands (props : GenSrcsProps) (raw : List TmplPart)
    (srcFiles : List GPath) (task : GenSrcsTask)
    (htask : task ∈ gensrcsTasks props raw srcFiles) :
    task.cmd = String.intercalate " && " (task.ins.map (fun src =>
      "bash -c " ++ shellEscape (gensrcsExpand src.str
        (sboxPathForOutput
          (gensrcsOutFile task.shards task.shard (props.output_extension.getD "") src)
          (gensrcsShardDir task.shards task.shard)) raw))) := by
  unfold gensrcsTasks at htask
  rcases List.mem_map.mp htask with ⟨p, hp, rfl⟩
  simp only [gensrcsTaskOf, gensrcsLoop_eq]
  rfl

/-- Witness for `gensrcs_per_file_commands` at a one-source rule: the
`cp $(in) $(out)` template becomes one shell-escaped `bash -c` command. -/
theorem gensrcs_per_file_commands_witness :
    ((gensrcsTasks {} [TmplPart.lit "cp ", TmplPart.var "in", TmplPart.lit " ",
          TmplPart.var "out"] [GPath.source "a.txt"]).headD
        ⟨[], [], none, [], GPath.moduleGen [], "", 0, 0⟩).cmd
      = "bash -c " ++ shellEscape ("cp a.txt "
          ++ sboxPathForOutput (GPath.genWithExt "gensrcs" (GPath.source "a.txt") "")
            (GPath.moduleGen ["gensrcs"])) := by
  have h := gensrcs_per_file_commands {}
    [TmplPart.lit "cp ", TmplPart.var "in", TmplPart.lit " ", TmplPart.var "out"]
    [GPath.source "a.txt"]
    ((gensrcsTasks {} [TmplPart.lit "cp ", TmplPart.var "in", TmplPart.lit " ",
        TmplPart.var "out"] [GPath.source "a.txt"]).headD
      ⟨[], [], none, [], GPath.moduleGen [], "", 0, 0⟩)
    (by decide)
  exact h.trans (by decide)

/-- Every shard the planner produces is nonempty. -/
theorem shardPathsGo_mem_ne_nil {α : Type} (fuel : Nat) :
    ∀ (xs : List α) (n : Nat) (shard : List α),
      xs.length ≤ fuel → shard ∈ shardPathsGo fuel xs n → shard ≠ [] := by
  induction fuel with
  | zero =>
    intro xs n shard hlen hs
    rcases xs with _ | ⟨a, rest⟩
    · simp [shardPathsGo] at hs
    · simp at hlen
  | succ fuel ih =>
    intro xs n shard hlen hs
    rcases xs with _ | ⟨a, rest⟩
    · simp [shardPathsGo] at hs
    · rw [shardPathsGo] at hs
      split at hs
      · rw [List.mem_singleton] at hs
        subst hs
        exact List.cons_ne_nil a rest
      · rename_i hcond
        push_neg at hcond
        simp only [List.length_cons] at hcond
        rcases List.mem_cons.mp hs with rfl | hs'
        · intro he
          have := congrArg List.length he
          simp [List.length_take] at this
          omega
        · refine ih _ n shard ?_ hs'
          simp only [List.length_drop, List.length_cons]
          simp only [List.length_cons] at hlen
          omega
      · exact List.cons_ne_nil a rest

theorem shardPaths_mem_ne_nil {α : Type} (xs : List α) (n : Nat) (shard : List α)
    (hs : shard ∈ shardPaths xs n) : shard ≠ [] :=
  shardPathsGo_mem_ne_nil xs.length xs n shard le_rfl hs

/-- A task list in which no task has copy targets never creates the merge
rule (the `copyFrom` accumulation stays empty). -/
theorem gensrcsCopyFrom_go_nil (tasks : List GenSrcsTask) (acc : List GPath)
    (h : ∀ t ∈ tasks, t.copyTo = []) :
    tasks.foldl (fun acc t => if t.copyTo ≠ [] then acc ++ t.out else acc) acc = acc := by
  induction tasks generalizing acc with
  | nil => rfl
  | cons t rest ih =>
    rw [List.foldl_cons, if_neg (by simp [h t (List.mem_cons_self t rest)])]
    exact ih acc (fun x hx => h x (List.mem_cons_of_mem t hx))

theorem gensrcs_foldl_ne_nil (tasks : List GenSrcsTask) (acc : List GPath)
    (ha : acc ≠ []) :
    tasks.foldl (fun acc t => if t.copyTo ≠ [] then acc ++ t.out else acc) acc ≠ [] := by
  induction tasks generalizing acc with
  | nil => exact ha
  | cons t rest ih =>
    rw [List.foldl_cons]
    by_cases hc : t.copyTo ≠ []
    · rw [if_pos hc]
      refine ih _ (fun h => ha (List.append_eq_nil.mp h).1)
    · rw [if_neg hc]
      exact ih _ ha

/-- One task with both copy targets and outputs forces the merge rule. -/
theorem gensrcsCopyFrom_go_ne (tasks : List GenSrcsTask) (t : GenSrcsTask)
    (ht : t ∈ tasks) (hc : t.copyTo ≠ []) (ho : t.out ≠ []) (acc : List GPath) :
    tasks.foldl (fun acc t => if t.copyTo ≠ [] then acc ++ t.out else acc) acc ≠ [] := by
  induction tasks generalizing acc with
  | nil => cases ht
  | cons y rest ih =>
    rw [List.foldl_cons]
    rcases List.mem_cons.mp ht with rfl | hm
    · rw [if_pos hc]
      refine gensrcs_foldl_ne_nil rest _ (fun h => ho (List.append_eq_nil.mp h).2)
    · by_cases hcy : y.copyTo ≠ []
      · rw [if_pos hcy]
        exact ih hm _
      · rw [if_neg hcy]
        exact ih hm _

/-- The fields of the task built for an indexed shard, in closed form. -/
theorem gensrcsTaskOf_fields (raw : List TmplPart) (ext : String) (numShards : Nat)
    (p : Nat × List GPath) :
    (gensrcsTaskOf raw ext numShards p).ins = p.2 ∧
      (gensrcsTaskOf raw ext numShards p).out = p.2.map (gensrcsOutFile numShards p.1 ext) ∧
      (gensrcsTaskOf raw ext numShards p).copyTo
        = (if 1 < numShards then p.2.map (gensrcsOutFinal ext) else []) ∧
      (gensrcsTaskOf raw ext numShards p).genDir = gensrcsShardDir numShards p.1 ∧
      (gensrcsTaskOf raw ext numShards p).shard = p.1 ∧
      (gensrcsTaskOf raw ext numShards p).shards = numShards := by
  unfold gensrcsTaskOf
  rw [gensrcsLoop_eq]
  exact ⟨rfl, rfl, rfl, rfl, rfl, rfl⟩

/-- Claim C6. In the per-file (gensrcs) variant: with a single-shard plan,
every output is produced directly in the common `gensrcs` generated
directory, no copy targets are recorded, and no merge rule is created; with
more than one shard, shard `i` produces its outputs under the private
subdirectory named by `i`, each output's final unified (shard-independent)
name is recorded as its copy target, and the merge rule is created. -/
theorem gensrcs_shard_merge_layout (props : GenSrcsProps) (raw : List TmplPart)
    (srcFiles : List GPath) :
    ((shardPaths srcFiles (props.shard_size.getD defaultShardSize)).length = 1 →
        (∀ task ∈ gensrcsTasks props raw srcFiles,
          task.genDir = GPath.moduleGen ["gensrcs"] ∧ task.copyTo = [] ∧
            task.out = task.ins.map (gensrcsOutFinal (props.output_extension.getD ""))) ∧
          gensrcsMergeCreated (gensrcsTasks props raw srcFiles) = false) ∧
      (1 < (shardPaths srcFiles (props.shard_size.getD defaultShardSize)).length →
        (∀ task ∈ gensrcsTasks props raw srcFiles,
          task.genDir = GPath.moduleGen [toString task.shard] ∧
            task.copyTo = task.ins.map (gensrcsOutFinal (props.output_extension.getD "")) ∧
            task.out = task.ins.map (fun src =>
              GPath.genWithExt (toString task.shard) src
                (props.output_extension.getD ""))) ∧
          gensrcsMergeCreated (gensrcsTasks props raw srcFiles) = true) := by
  have htasks : gensrcsTasks props raw srcFiles
      = (shardPaths srcFiles (props.shard_size.getD defaultShardSize)).enum.map
          (gensrcsTaskOf raw (props.output_extension.getD "")
            (shardPaths srcFiles (props.shard_size.getD defaultShardSize)).length) := rfl
  constructor
  · intro hone
    have hno : ¬ (1 < (shardPaths srcFiles (props.shard_size.getD defaultShardSize)).length) := by
      rw [hone]
      omega
    have hfields : ∀ task ∈ gensrcsTasks props raw srcFiles,
        task.genDir = GPath.moduleGen ["gensrcs"] ∧ task.copyTo = [] ∧
          task.out = task.ins.map (gensrcsOutFinal (props.output_extension.getD "")) := by
      intro task htask
      rw [htasks] at htask
      rcases List.mem_map.mp htask with ⟨p, hp, rfl⟩
      have hf := gensrcsTaskOf_fields raw (props.output_extension.getD "")
        (shardPaths srcFiles (props.shard_size.getD defaultShardSize)).length p
      refine ⟨?_, ?_, ?_⟩
      · rw [hf.2.2.2.1]
        unfold gensrcsShardDir
        rw [if_neg hno]
      · rw [hf.2.2.1, if_neg hno]
      · rw [hf.2.1, hf.1]
        refine List.map_congr_left (fun src _ => ?_)
        unfold gensrcsOutFile
        rw [if_neg hno]
    refine ⟨hfields, ?_⟩
    unfold gensrcsMergeCreated gensrcsCopyFrom
    rw [gensrcsCopyFrom_go_nil _ _ (fun t ht => (hfields t ht).2.1)]
    rfl
  · intro hmany
    have hfields : ∀ task ∈ gensrcsTasks props raw srcFiles,
        task.genDir = GPath.moduleGen [toString task.shard] ∧
          task.copyTo = task.ins.map (gensrcsOutFinal (props.output_extension.getD "")) ∧
          task.out = task.ins.map (fun src =>
            GPath.genWithExt (toString task.shard) src (props.output_extension.getD "")) := by
      intro task htask
      rw [htasks] at htask
      rcases List.mem_map.mp htask with ⟨p, hp, rfl⟩
      have hf := gensrcsTaskOf_fields raw (props.output_extension.getD "")
        (shardPaths srcFiles (props.shard_size.getD defaultShardSize)).length p
      refine ⟨?_, ?_, ?_⟩
      · rw [hf.2.2.2.1, hf.2.2.2.2.1]
        unfold gensrcsShardDir
        rw [if_pos hmany]
      · rw [hf.2.2.1, if_pos hmany, hf.1]
      · rw [hf.2.1, hf.1, hf.2.2.2.2.1]
        refine List.map_congr_left (fun src _ => ?_)
        unfold gensrcsOutFile
        rw [if_pos hmany]
    refine ⟨hfields, ?_⟩
    rcases hsh : shardPaths srcFiles (props.shard_size.getD defaultShardSize) with
      _ | ⟨s0, rest⟩
    · rw [hsh] at hmany
      simp at hmany
    · have hs0 : s0 ≠ [] := shardPaths_mem_ne_nil srcFiles _ s0 (by rw [hsh]; simp)
      have ht0 : gensrcsTaskOf raw (props.output_extension.getD "")
          (shardPaths srcFiles (props.shard_size.getD defaultShardSize)).length (0, s0)
          ∈ gensrcsTasks props raw srcFiles := by
        rw [htasks, hsh]
        exact List.mem_map_of_mem _ (by simp [List.enum_cons])
      have hfc := hfields _ ht0
      have hf := gensrcsTaskOf_fields raw (props.output_extension.getD "")
        (shardPaths srcFiles (props.shard_size.getD defaultShardSize)).length (0, s0)
      unfold gensrcsMergeCreated gensrcsCopyFrom
      have hne := gensrcsCopyFrom_go_ne (gensrcsTasks props raw srcFiles) _ ht0
        (by rw [hfc.2.1, hf.1]; simp [hs0])
        (by rw [hf.2.1]; simp [hs0]) []
      rcases hres : (gensrcsTasks props raw srcFiles).foldl
          (fun acc t => if t.copyTo ≠ [] then acc ++ t.out else acc) [] with _ | ⟨a, r⟩
      · exact absurd hres hne
      · rw [hres]
        rfl

/-- Witness for `gensrcs_shard_merge_layout`: three sources with shard size
2 give two shards, shard-private directories, final-name copy targets and a
merge rule. -/
theorem gensrcs_shard_merge_layout_witness :
    ((gensrcsTasks { shard_size := some 2 } []
          [GPath.source "a", GPath.source "b", GPath.source "c"]).headD
        ⟨[], [], none, [], GPath.moduleGen [], "", 0, 0⟩).genDir
      = GPath.moduleGen [toString ((gensrcsTasks { shard_size := some 2 } []
          [GPath.source "a", GPath.source "b", GPath.source "c"]).headD
        ⟨[], [], none, [], GPath.moduleGen [], "", 0, 0⟩).shard] ∧
      gensrcsMergeCreated (gensrcsTasks { shard_size := some 2 } []
        [GPath.source "a", GPath.source "b", GPath.source "c"]) = true := by
  have h := (gensrcs_shard_merge_layout { shard_size := some 2 } []
    [GPath.source "a", GPath.source "b", GPath.source "c"]).2 (by decide)
  exact ⟨(h.1 _ (by decide)).1, h.2⟩

end Genrule
